import Mathlib

/-
Verification of the subquery-resolution and caching analysis of a SQL query
engine. The analyzer rules (resolveSubqueries, finalizeSubqueries,
flattenTableAliases, analyzeSubqueryExpression, analyzeSubqueryAlias,
StripPassthroughNodes, exprIsCacheable, nodeIsCacheable, cacheSubqueryResults,
cacheSubqueryAlisesInJoins, setJoinScopeLen) are translated from the Go source.
The plan-node data model, the scope chain and the generic tree-transformation
framework (transform.Node, transform.NodeWithCtx, transform.Expr,
transform.NodeExprsWithNode) are external collaborators of the analyzed file;
they are modelled from the specification of the system.
-/

namespace GmsAnalyzer

/-- TreeIdentity: two-valued marker returned alongside every rewrite result.
In the Go source it is a boolean type with constants SameTree and NewTree. -/
inductive TI where
  | same
  | new
deriving DecidableEq, Repr

/-- Conjunction of tree identities, mirroring the Go boolean conjunction
sameA && sameD: the combined result is unchanged only if both parts are. -/
def TI.and : TI → TI → TI
  | TI.same, TI.same => TI.same
  | _, _ => TI.new

/-- Join variants carried by a join node. JoinTypeRight is the variant whose
primary (driving) branch is the right child. -/
inductive JoinType where
  | inner
  | left
  | right
deriving DecidableEq, Repr

mutual
/-- Modelled from the spec: scalar expressions are immutable and polymorphic
over a closed variant set; variants include literals, field references, a
non-deterministic function, a deterministic unary function, an unresolved
column, and a Subquery variant wrapping an inner plan node plus
cached-result metadata. -/
inductive Expr where
  | getField (idx : Nat) (name : String)
  | literal (v : Nat)
  | uncol (name : String)
  | nondet
  | unary (child : Expr)
  | subquery (query : Node) (cached : Bool)
deriving DecidableEq, Repr

/-- Modelled from the spec: plan nodes are immutable and polymorphic over a
closed variant set (scan, projection, subquery-derived-table, passthrough
wrappers, joins, caching and strip wrappers, trigger block). -/
inductive Node where
  | table (name : String) (ncols : Nat)
  | project (exprs : ExprList) (child : Node)
  | subqueryAlias (name : String) (columns : List String) (outerVis : Bool) (child : Node)
  | tableAlias (name : String) (child : Node)
  | cachedResults (child : Node)
  | queryProcess (child : Node)
  | startTransaction (child : Node)
  | transactionCommitting (child : Node)
  | join (jt : JoinType) (scopeLen : Nat) (cond : Expr) (left : Node) (right : Node)
  | indexedJoin (left : Node) (right : Node)
  | stripRowNode (numCols : Nat) (child : Node)
  | trigBlock (body : Node)
deriving DecidableEq, Repr

/-- A list of scalar expressions owned by an expression-bearing node. -/
inductive ExprList where
  | nil
  | cons (e : Expr) (tail : ExprList)
deriving DecidableEq, Repr
end

/-- Length of an expression list. -/
def ExprList.length : ExprList → Nat
  | ExprList.nil => 0
  | ExprList.cons _ es => es.length + 1

/-- Modelled from the spec: number of columns produced by a node, the length
of the schema the analyzer function schemaLength computes. -/
def schemaLength : Node → Nat
  | Node.table _ k => k
  | Node.project es _ => es.length
  | Node.subqueryAlias _ _ _ c => schemaLength c
  | Node.tableAlias _ c => schemaLength c
  | Node.cachedResults c => schemaLength c
  | Node.queryProcess c => schemaLength c
  | Node.startTransaction c => schemaLength c
  | Node.transactionCommitting c => schemaLength c
  | Node.join _ _ _ l r => schemaLength l + schemaLength r
  | Node.indexedJoin l r => schemaLength l + schemaLength r
  | Node.stripRowNode _ c => schemaLength c
  | Node.trigBlock c => schemaLength c

mutual
/-- Modelled from the spec: an expression reports whether it is fully
resolved; an unresolved column is not, a subquery expression is resolved
exactly when its inner query is. -/
def exprResolved : Expr → Bool
  | Expr.getField _ _ => true
  | Expr.literal _ => true
  | Expr.uncol _ => false
  | Expr.nondet => true
  | Expr.unary e => exprResolved e
  | Expr.subquery q _ => nodeResolved q

/-- Resolvedness of every expression in a list. -/
def exprListResolved : ExprList → Bool
  | ExprList.nil => true
  | ExprList.cons e es => exprResolved e && exprListResolved es

/-- Modelled from the spec: a node reports whether it is fully resolved,
which requires all children and all owned expressions to be resolved. -/
def nodeResolved : Node → Bool
  | Node.table _ _ => true
  | Node.project es c => exprListResolved es && nodeResolved c
  | Node.subqueryAlias _ _ _ c => nodeResolved c
  | Node.tableAlias _ c => nodeResolved c
  | Node.cachedResults c => nodeResolved c
  | Node.queryProcess c => nodeResolved c
  | Node.startTransaction c => nodeResolved c
  | Node.transactionCommitting c => nodeResolved c
  | Node.join _ _ e l r => exprResolved e && (nodeResolved l && nodeResolved r)
  | Node.indexedJoin l r => nodeResolved l && nodeResolved r
  | Node.stripRowNode _ c => nodeResolved c
  | Node.trigBlock c => nodeResolved c
end

/-- Expressions owned by a node (the Expressioner capability): a projection
owns its projected expressions, a join owns its condition. -/
def nodeExprs : Node → ExprList
  | Node.project es _ => es
  | Node.join _ _ cond _ _ => ExprList.cons cond ExprList.nil
  | _ => ExprList.nil

/-- Rebuild an expression-bearing node with a full new expression list
(the WithExpressions capability). Nodes that own no expressions are
returned unchanged. -/
def nodeWithExprs : Node → ExprList → Node
  | Node.project _ c, es => Node.project es c
  | Node.join jt sl _ l r, ExprList.cons cond ExprList.nil => Node.join jt sl cond l r
  | n, _ => n

/-- Modelled from the spec: the scope chain records the enclosing plan nodes
(innermost first) and a recursion-depth counter. -/
structure Scope where
  nodes : List Node
  depth : Nat
deriving DecidableEq, Repr

/-- The scope of the outermost query: no enclosing nodes, depth zero. -/
def emptyScope : Scope := ⟨[], 0⟩

/-- Recursion depth of a scope. -/
def Scope.RecursionDepth (s : Scope) : Nat := s.depth

/-- Modelled from the spec: extending a scope with the node that contains a
subquery expression grants lateral visibility; the depth counter is the
per-derived-table counter and is unchanged here. -/
def Scope.newScope (s : Scope) (n : Node) : Scope := ⟨n :: s.nodes, s.depth⟩

/-- The enclosing nodes of the scope, innermost first. -/
def Scope.InnerToOuter (s : Scope) : List Node := s.nodes

/-- A fresh scope with no nodes at the given recursion depth. -/
def newScopeWithDepth (d : Nat) : Scope := ⟨[], d⟩

/-- Modelled from the spec: length of the concatenated schema of all scope
nodes, the number of columns contributed by enclosing scopes. -/
def scopeSchemaLen (s : Scope) : Nat := (s.nodes.map schemaLength).sum

/-- Whether the scope has no enclosing nodes. -/
def Scope.IsEmpty (s : Scope) : Bool := s.nodes.isEmpty

/-- Analysis errors. The first three form the deferrable class of errors
meaning "not enough information yet"; columnCountMismatch is the structural
error of a derived table declaring a column count its body does not produce;
other covers every remaining error, tagged by an opaque code. -/
inductive AErr where
  | validationResolved
  | tableColumnNotFound
  | columnNotFound
  | columnCountMismatch
  | other (code : Nat)
deriving DecidableEq, Repr

/-- The deferrable class tested by analyzeSubqueryExpression:
ErrValidationResolved, ErrTableColumnNotFound or ErrColumnNotFound. -/
def AErr.deferrable : AErr → Bool
  | AErr.validationResolved => true
  | AErr.tableColumnNotFound => true
  | AErr.columnNotFound => true
  | _ => false

/-- Context handed to a context-aware rewrite function: the current node,
its parent (none at the root) and its index among its siblings. -/
structure Ctx where
  node : Node
  parent : Option Node
  childNum : Nat

/-- Modelled from the spec: the recursive analyzer entry points that the
subquery rules invoke. analyzeWithSelector is called with either the
unrestricted rule selector (restricted = false, the finalize phase) or the
restricted subquery-expression selector (restricted = true, the tentative
phase); it returns the possibly incomplete analysis result together with an
optional error (the Go caller discards the accompanying identity).
analyzeThroughBatch and analyzeStartingAtBatch run the default-rules batch
for a derived table tentatively respectively finally. -/
structure Analyzer where
  analyzeWithSelector : Bool → Node → Scope → Node × Option AErr
  analyzeThroughBatch : Node → Scope → Except AErr (Node × TI)
  analyzeStartingAtBatch : Node → Scope → Except AErr (Node × TI)

/-- Modelled from the spec: context-aware bottom-up traversal
(transform.NodeWithCtx), pure variant. Children are rewritten before the
node itself is offered to the rewrite function; the selector is consulted
before descending into each child and pruning keeps the child unchanged;
the node is rebuilt only from children reported changed; the returned
identity is the conjunction of the children identities and the identity
reported by the rewrite function. -/
def nodeWithCtxP (sel : Ctx → Bool) (f : Ctx → Node × TI) (n : Node) (p : Option Node) (i : Nat) :
    Node × TI :=
  match n with
  | Node.table nm k => f ⟨Node.table nm k, p, i⟩
  | Node.project es c =>
      let r := if sel ⟨c, some (Node.project es c), 0⟩ then
        nodeWithCtxP sel f c (some (Node.project es c)) 0 else (c, TI.same)
      let n1 := if r.2 = TI.new then Node.project es r.1 else Node.project es c
      let r2 := f ⟨n1, p, i⟩
      (r2.1, TI.and r.2 r2.2)
  | Node.subqueryAlias nm cols v c =>
      let r := if sel ⟨c, some (Node.subqueryAlias nm cols v c), 0⟩ then
        nodeWithCtxP sel f c (some (Node.subqueryAlias nm cols v c)) 0 else (c, TI.same)
      let n1 := if r.2 = TI.new then Node.subqueryAlias nm cols v r.1 else Node.subqueryAlias nm cols v c
      let r2 := f ⟨n1, p, i⟩
      (r2.1, TI.and r.2 r2.2)
  | Node.tableAlias nm c =>
      let r := if sel ⟨c, some (Node.tableAlias nm c), 0⟩ then
        nodeWithCtxP sel f c (some (Node.tableAlias nm c)) 0 else (c, TI.same)
      let n1 := if r.2 = TI.new then Node.tableAlias nm r.1 else Node.tableAlias nm c
      let r2 := f ⟨n1, p, i⟩
      (r2.1, TI.and r.2 r2.2)
  | Node.cachedResults c =>
      let r := if sel ⟨c, some (Node.cachedResults c), 0⟩ then
        nodeWithCtxP sel f c (some (Node.cachedResults c)) 0 else (c, TI.same)
      let n1 := if r.2 = TI.new then Node.cachedResults r.1 else Node.cachedResults c
      let r2 := f ⟨n1, p, i⟩
      (r2.1, TI.and r.2 r2.2)
  | Node.queryProcess c =>
      let r := if sel ⟨c, some (Node.queryProcess c), 0⟩ then
        nodeWithCtxP sel f c (some (Node.queryProcess c)) 0 else (c, TI.same)
      let n1 := if r.2 = TI.new then Node.queryProcess r.1 else Node.queryProcess c
      let r2 := f ⟨n1, p, i⟩
      (r2.1, TI.and r.2 r2.2)
  | Node.startTransaction c =>
      let r := if sel ⟨c, some (Node.startTransaction c), 0⟩ then
        nodeWithCtxP sel f c (some (Node.startTransaction c)) 0 else (c, TI.same)
      let n1 := if r.2 = TI.new then Node.startTransaction r.1 else Node.startTransaction c
      let r2 := f ⟨n1, p, i⟩
      (r2.1, TI.and r.2 r2.2)
  | Node.transactionCommitting c =>
      let r := if sel ⟨c, some (Node.transactionCommitting c), 0⟩ then
        nodeWithCtxP sel f c (some (Node.transactionCommitting c)) 0 else (c, TI.same)
      let n1 := if r.2 = TI.new then Node.transactionCommitting r.1 else Node.transactionCommitting c
      let r2 := f ⟨n1, p, i⟩
      (r2.1, TI.and r.2 r2.2)
  | Node.join jt sl cond l rr =>
      let a := if sel ⟨l, some (Node.join jt sl cond l rr), 0⟩ then
        nodeWithCtxP sel f l (some (Node.join jt sl cond l rr)) 0 else (l, TI.same)
      let b := if sel ⟨rr, some (Node.join jt sl cond l rr), 1⟩ then
        nodeWithCtxP sel f rr (some (Node.join jt sl cond l rr)) 1 else (rr, TI.same)
      let l1 := if a.2 = TI.new then a.1 else l
      let r1 := if b.2 = TI.new then b.1 else rr
      let n1 := if TI.and a.2 b.2 = TI.new then Node.join jt sl cond l1 r1 else Node.join jt sl cond l rr
      let r2 := f ⟨n1, p, i⟩
      (r2.1, TI.and (TI.and a.2 b.2) r2.2)
  | Node.indexedJoin l rr =>
      let a := if sel ⟨l, some (Node.indexedJoin l rr), 0⟩ then
        nodeWithCtxP sel f l (some (Node.indexedJoin l rr)) 0 else (l, TI.same)
      let b := if sel ⟨rr, some (Node.indexedJoin l rr), 1⟩ then
        nodeWithCtxP sel f rr (some (Node.indexedJoin l rr)) 1 else (rr, TI.same)
      let l1 := if a.2 = TI.new then a.1 else l
      let r1 := if b.2 = TI.new then b.1 else rr
      let n1 := if TI.and a.2 b.2 = TI.new then Node.indexedJoin l1 r1 else Node.indexedJoin l rr
      let r2 := f ⟨n1, p, i⟩
      (r2.1, TI.and (TI.and a.2 b.2) r2.2)
  | Node.stripRowNode k c =>
      let r := if sel ⟨c, some (Node.stripRowNode k c), 0⟩ then
        nodeWithCtxP sel f c (some (Node.stripRowNode k c)) 0 else (c, TI.same)
      let n1 := if r.2 = TI.new then Node.stripRowNode k r.1 else Node.stripRowNode k c
      let r2 := f ⟨n1, p, i⟩
      (r2.1, TI.and r.2 r2.2)
  | Node.trigBlock c =>
      let r := if sel ⟨c, some (Node.trigBlock c), 0⟩ then
        nodeWithCtxP sel f c (some (Node.trigBlock c)) 0 else (c, TI.same)
      let n1 := if r.2 = TI.new then Node.trigBlock r.1 else Node.trigBlock c
      let r2 := f ⟨n1, p, i⟩
      (r2.1, TI.and r.2 r2.2)

/-- Modelled from the spec: context-free bottom-up traversal
(transform.Node), expressed through the context-aware one with a selector
that never prunes. -/
def transformNodeP (f : Node → Node × TI) (n : Node) : Node × TI :=
  nodeWithCtxP (fun _ => true) (fun c => f c.node) n none 0

/-- Modelled from the spec: context-aware bottom-up traversal
(transform.NodeWithCtx), fallible variant: an error reported for any node
aborts the whole traversal. -/
def nodeWithCtxE (sel : Ctx → Bool) (f : Ctx → Except AErr (Node × TI)) (n : Node)
    (p : Option Node) (i : Nat) : Except AErr (Node × TI) :=
  match n with
  | Node.table nm k => f ⟨Node.table nm k, p, i⟩
  | Node.project es c =>
      match (if sel ⟨c, some (Node.project es c), 0⟩ then nodeWithCtxE sel f c (some (Node.project es c)) 0 else Except.ok (c, TI.same)) with
      | Except.error e => Except.error e
      | Except.ok r =>
        let n1 := if r.2 = TI.new then Node.project es r.1 else Node.project es c
        match f ⟨n1, p, i⟩ with
        | Except.error e => Except.error e
        | Except.ok r2 => Except.ok (r2.1, TI.and r.2 r2.2)
  | Node.subqueryAlias nm cols v c =>
      match (if sel ⟨c, some (Node.subqueryAlias nm cols v c), 0⟩ then nodeWithCtxE sel f c (some (Node.subqueryAlias nm cols v c)) 0 else Except.ok (c, TI.same)) with
      | Except.error e => Except.error e
      | Except.ok r =>
        let n1 := if r.2 = TI.new then Node.subqueryAlias nm cols v r.1 else Node.subqueryAlias nm cols v c
        match f ⟨n1, p, i⟩ with
        | Except.error e => Except.error e
        | Except.ok r2 => Except.ok (r2.1, TI.and r.2 r2.2)
  | Node.tableAlias nm c =>
      match (if sel ⟨c, some (Node.tableAlias nm c), 0⟩ then nodeWithCtxE sel f c (some (Node.tableAlias nm c)) 0 else Except.ok (c, TI.same)) with
      | Except.error e => Except.error e
      | Except.ok r =>
        let n1 := if r.2 = TI.new then Node.tableAlias nm r.1 else Node.tableAlias nm c
        match f ⟨n1, p, i⟩ with
        | Except.error e => Except.error e
        | Except.ok r2 => Except.ok (r2.1, TI.and r.2 r2.2)
  | Node.cachedResults c =>
      match (if sel ⟨c, some (Node.cachedResults c), 0⟩ then nodeWithCtxE sel f c (some (Node.cachedResults c)) 0 else Except.ok (c, TI.same)) with
      | Except.error e => Except.error e
      | Except.ok r =>
        let n1 := if r.2 = TI.new then Node.cachedResults r.1 else Node.cachedResults c
        match f ⟨n1, p, i⟩ with
        | Except.error e => Except.error e
        | Except.ok r2 => Except.ok (r2.1, TI.and r.2 r2.2)
  | Node.queryProcess c =>
      match (if sel ⟨c, some (Node.queryProcess c), 0⟩ then nodeWithCtxE sel f c (some (Node.queryProcess c)) 0 else Except.ok (c, TI.same)) with
      | Except.error e => Except.error e
      | Except.ok r =>
        let n1 := if r.2 = TI.new then Node.queryProcess r.1 else Node.queryProcess c
        match f ⟨n1, p, i⟩ with
        | Except.error e => Except.error e
        | Except.ok r2 => Except.ok (r2.1, TI.and r.2 r2.2)
  | Node.startTransaction c =>
      match (if sel ⟨c, some (Node.startTransaction c), 0⟩ then nodeWithCtxE sel f c (some (Node.startTransaction c)) 0 else Except.ok (c, TI.same)) with
      | Except.error e => Except.error e
      | Except.ok r =>
        let n1 := if r.2 = TI.new then Node.startTransaction r.1 else Node.startTransaction c
        match f ⟨n1, p, i⟩ with
        | Except.error e => Except.error e
        | Except.ok r2 => Except.ok (r2.1, TI.and r.2 r2.2)
  | Node.transactionCommitting c =>
      match (if sel ⟨c, some (Node.transactionCommitting c), 0⟩ then nodeWithCtxE sel f c (some (Node.transactionCommitting c)) 0 else Except.ok (c, TI.same)) with
      | Except.error e => Except.error e
      | Except.ok r =>
        let n1 := if r.2 = TI.new then Node.transactionCommitting r.1 else Node.transactionCommitting c
        match f ⟨n1, p, i⟩ with
        | Except.error e => Except.error e
        | Except.ok r2 => Except.ok (r2.1, TI.and r.2 r2.2)
  | Node.join jt sl cond l rr =>
      match (if sel ⟨l, some (Node.join jt sl cond l rr), 0⟩ then nodeWithCtxE sel f l (some (Node.join jt sl cond l rr)) 0 else Except.ok (l, TI.same)) with
      | Except.error e => Except.error e
      | Except.ok ra =>
        match (if sel ⟨rr, some (Node.join jt sl cond l rr), 1⟩ then nodeWithCtxE sel f rr (some (Node.join jt sl cond l rr)) 1 else Except.ok (rr, TI.same)) with
        | Except.error e => Except.error e
        | Except.ok rb =>
          let l1 := if ra.2 = TI.new then ra.1 else l
          let r1 := if rb.2 = TI.new then rb.1 else rr
          let n1 := if TI.and ra.2 rb.2 = TI.new then Node.join jt sl cond l1 r1 else Node.join jt sl cond l rr
          match f ⟨n1, p, i⟩ with
          | Except.error e => Except.error e
          | Except.ok r2 => Except.ok (r2.1, TI.and (TI.and ra.2 rb.2) r2.2)
  | Node.indexedJoin l rr =>
      match (if sel ⟨l, some (Node.indexedJoin l rr), 0⟩ then nodeWithCtxE sel f l (some (Node.indexedJoin l rr)) 0 else Except.ok (l, TI.same)) with
      | Except.error e => Except.error e
      | Except.ok ra =>
        match (if sel ⟨rr, some (Node.indexedJoin l rr), 1⟩ then nodeWithCtxE sel f rr (some (Node.indexedJoin l rr)) 1 else Except.ok (rr, TI.same)) with
        | Except.error e => Except.error e
        | Except.ok rb =>
          let l1 := if ra.2 = TI.new then ra.1 else l
          let r1 := if rb.2 = TI.new then rb.1 else rr
          let n1 := if TI.and ra.2 rb.2 = TI.new then Node.indexedJoin l1 r1 else Node.indexedJoin l rr
          match f ⟨n1, p, i⟩ with
          | Except.error e => Except.error e
          | Except.ok r2 => Except.ok (r2.1, TI.and (TI.and ra.2 rb.2) r2.2)
  | Node.stripRowNode k c =>
      match (if sel ⟨c, some (Node.stripRowNode k c), 0⟩ then nodeWithCtxE sel f c (some (Node.stripRowNode k c)) 0 else Except.ok (c, TI.same)) with
      | Except.error e => Except.error e
      | Except.ok r =>
        let n1 := if r.2 = TI.new then Node.stripRowNode k r.1 else Node.stripRowNode k c
        match f ⟨n1, p, i⟩ with
        | Except.error e => Except.error e
        | Except.ok r2 => Except.ok (r2.1, TI.and r.2 r2.2)
  | Node.trigBlock c =>
      match (if sel ⟨c, some (Node.trigBlock c), 0⟩ then nodeWithCtxE sel f c (some (Node.trigBlock c)) 0 else Except.ok (c, TI.same)) with
      | Except.error e => Except.error e
      | Except.ok r =>
        let n1 := if r.2 = TI.new then Node.trigBlock r.1 else Node.trigBlock c
        match f ⟨n1, p, i⟩ with
        | Except.error e => Except.error e
        | Except.ok r2 => Except.ok (r2.1, TI.and r.2 r2.2)

/-- Modelled from the spec: bottom-up rewrite of one expression tree
(transform.Expr), fallible variant. Expression children are rewritten
first, the node is rebuilt only when a child changed, then the rewrite
function is applied to it. Only the unary function variant has expression
children; a subquery expression exposes none. -/
def transformExprE (f : Expr → Except AErr (Expr × TI)) : Expr → Except AErr (Expr × TI)
  | Expr.unary e =>
      match transformExprE f e with
      | Except.error err => Except.error err
      | Except.ok r =>
        let n1 := if r.2 = TI.new then Expr.unary r.1 else Expr.unary e
        match f n1 with
        | Except.error err => Except.error err
        | Except.ok r2 => Except.ok (r2.1, TI.and r.2 r2.2)
  | e => f e

/-- Rewrite each expression of a list independently, keeping the original
expression where the rewrite reported no change, and report whether any
expression changed. This mirrors the per-expression loop of the subquery
rules, which only materializes a fresh expression slice when some rewrite
reported a new tree. -/
def mapExprsE (f : Expr → Except AErr (Expr × TI)) : ExprList → Except AErr (ExprList × TI)
  | ExprList.nil => Except.ok (ExprList.nil, TI.same)
  | ExprList.cons e es =>
      match f e with
      | Except.error err => Except.error err
      | Except.ok r =>
        match mapExprsE f es with
        | Except.error err => Except.error err
        | Except.ok rs =>
          let e1 := if r.2 = TI.new then r.1 else e
          Except.ok (ExprList.cons e1 rs.1, TI.and r.2 rs.2)

/-- Modelled from the spec: bottom-up rewrite of one expression tree, pure
variant. -/
def transformExprP (f : Expr → Expr × TI) : Expr → Expr × TI
  | Expr.unary e =>
      let r := transformExprP f e
      let n1 := if r.2 = TI.new then Expr.unary r.1 else Expr.unary e
      let r2 := f n1
      (r2.1, TI.and r.2 r2.2)
  | e => f e

/-- Pure per-expression map over the owned expressions of a node. -/
def mapExprsP (f : Expr → Expr × TI) : ExprList → ExprList × TI
  | ExprList.nil => (ExprList.nil, TI.same)
  | ExprList.cons e es =>
      let r := f e
      let rs := mapExprsP f es
      let e1 := if r.2 = TI.new then r.1 else e
      (ExprList.cons e1 rs.1, TI.and r.2 rs.2)

/-- Modelled from the spec: transform.NodeExprsWithNode rewrites, for every
node of the tree (bottom-up), each scalar sub-expression of that node with a
function that also receives the owning node, and rebuilds the node once when
any of its expressions changed. -/
def nodeExprsWithNode (f : Node → Expr → Expr × TI) (n : Node) : Node × TI :=
  transformNodeP (fun m =>
    let r := mapExprsP (transformExprP (f m)) (nodeExprs m)
    if r.2 = TI.new then (nodeWithExprs m r.1, TI.new) else (m, TI.same)) n

/-- Whether a node is one of the passthrough wrapper variants that are
meaningful only at the outermost query level: QueryProcess,
StartTransaction or TransactionCommittingNode. -/
def isPassthrough : Node → Bool
  | Node.queryProcess _ => true
  | Node.startTransaction _ => true
  | Node.transactionCommitting _ => true
  | _ => false

/-- StripPassthroughNodes strips all top-level passthrough nodes from the
given tree and returns the first non-passthrough element, iterating while
the current node is a QueryProcess, StartTransaction or
TransactionCommittingNode. -/
def StripPassthroughNodes : Node → Node
  | Node.queryProcess c => StripPassthroughNodes c
  | Node.startTransaction c => StripPassthroughNodes c
  | Node.transactionCommitting c => StripPassthroughNodes c
  | n => n

/-- Local rewrite of flattenTableAliases: a TableAlias over a SubqueryAlias
or over another TableAlias becomes the child renamed with the outer alias
name; every other node is left alone. -/
def flattenTableAliasesFn : Node → Node × TI
  | Node.tableAlias nm (Node.subqueryAlias _ cols v c) =>
      (Node.subqueryAlias nm cols v c, TI.new)
  | Node.tableAlias nm (Node.tableAlias _ c) =>
      (Node.tableAlias nm c, TI.new)
  | n => (n, TI.same)

/-- flattenTableAliases applies the local rewrite over the whole tree,
bottom-up. -/
def flattenTableAliases (n : Node) : Node × TI :=
  transformNodeP flattenTableAliasesFn n

/-- exprIsCacheable inspects one expression tree: a field reference below
the lowest allowed index or any non-deterministic expression makes it
uncacheable. A subquery expression exposes no expression children to this
inspection. -/
def exprIsCacheable : Expr → Nat → Bool
  | Expr.getField i _, lowestAllowedIdx => decide (lowestAllowedIdx ≤ i)
  | Expr.literal _, _ => true
  | Expr.uncol _, _ => true
  | Expr.nondet, _ => false
  | Expr.unary e, lowestAllowedIdx => exprIsCacheable e lowestAllowedIdx
  | Expr.subquery _ _, _ => true

/-- Cacheability of every expression in a list. -/
def exprListCacheable : ExprList → Nat → Bool
  | ExprList.nil, _ => true
  | ExprList.cons e es, k => exprIsCacheable e k && exprListCacheable es k

/-- nodeIsCacheable inspects a node tree: for an expression-bearing node
every owned expression must be cacheable; any SubqueryAlias found anywhere
makes the tree uncacheable (the source disables caching for all subquery
aliases, not only the outer-visible ones) and its interior is not
inspected further. -/
def nodeIsCacheable : Node → Nat → Bool
  | Node.table _ _, _ => true
  | Node.project es c, k => exprListCacheable es k && nodeIsCacheable c k
  | Node.subqueryAlias _ _ _ _, _ => false
  | Node.tableAlias _ c, k => nodeIsCacheable c k
  | Node.cachedResults c, k => nodeIsCacheable c k
  | Node.queryProcess c, k => nodeIsCacheable c k
  | Node.startTransaction c, k => nodeIsCacheable c k
  | Node.transactionCommitting c, k => nodeIsCacheable c k
  | Node.join _ _ cond l r, k => exprIsCacheable cond k && (nodeIsCacheable l k && nodeIsCacheable r k)
  | Node.indexedJoin l r, k => nodeIsCacheable l k && nodeIsCacheable r k
  | Node.stripRowNode _ c, k => nodeIsCacheable c k
  | Node.trigBlock c, k => nodeIsCacheable c k

/-- Per-expression rewrite of cacheSubqueryResults: a resolved subquery
expression whose body is cacheable against the schema length of the current
scope extended with the owning node is marked to cache its results; every
other expression is returned unchanged. -/
def cacheSubqueryResultsExpr (scope : Scope) (n : Node) (e : Expr) : Expr × TI :=
  match e with
  | Expr.subquery q cached =>
      if nodeResolved q then
        let scopeLen := scopeSchemaLen (scope.newScope n)
        if nodeIsCacheable q scopeLen then (Expr.subquery q true, TI.new)
        else (Expr.subquery q cached, TI.same)
      else (Expr.subquery q cached, TI.same)
  | e => (e, TI.same)

/-- cacheSubqueryResults marks cacheable subquery expressions throughout the
plan; a trigger block at the root is skipped entirely because the analyzer
is recursively invoked on trigger blocks. -/
def cacheSubqueryResults (scope : Scope) (n : Node) : Node × TI :=
  match n with
  | Node.trigBlock b => (Node.trigBlock b, TI.same)
  | n => nodeExprsWithNode (cacheSubqueryResultsExpr scope) n

/-- analyzeSubqueryExpression analyzes the body of a subquery expression
against the child scope formed by extending the current scope with the
containing node. The tentative phase (finalize = false) uses the restricted
subquery-expression rule selector; a deferrable error there is swallowed
and the incomplete result is kept, rewrapped and reported changed. In the
finalize phase, and for any non-deferrable error, the error propagates.
A successful analysis is rewrapped after stripping top-level passthrough
nodes, and is always reported changed. -/
def analyzeSubqueryExpression (a : Analyzer) (n : Node) (q : Node) (cached : Bool)
    (scope : Scope) (finalize : Bool) : Except AErr (Expr × TI) :=
  let subScope := scope.newScope n
  let res := if finalize then a.analyzeWithSelector false q subScope
             else a.analyzeWithSelector true q subScope
  match res.2 with
  | some e =>
      if !finalize && e.deferrable then Except.ok (Expr.subquery res.1 cached, TI.new)
      else Except.error e
  | none => Except.ok (Expr.subquery (StripPassthroughNodes res.1) cached, TI.new)

/-- The child scope a subquery alias is analyzed under: a fresh scope at the
incremented recursion depth whose nodes are copied from the enclosing chain
when that chain is non-empty. -/
def sqaChildScope (s : Scope) : Scope :=
  let base := newScopeWithDepth (s.RecursionDepth + 1)
  if s.nodes.isEmpty then base else { base with nodes := s.InnerToOuter }

/-- analyzeSubqueryAlias analyzes the body of a subquery-derived table under
the child scope of incremented depth, granting outer scope visibility when
the enclosing scope is non-empty. A declared column count that differs from
the schema length of the analyzed body is a fatal column-count-mismatch
error in both phases. An unchanged body returns the node unchanged; a
changed body is reattached after stripping top-level passthrough nodes. -/
def analyzeSubqueryAlias (a : Analyzer) (nm : String) (cols : List String) (vis : Bool)
    (ch : Node) (s : Scope) (finalize : Bool) : Except AErr (Node × TI) :=
  let subScope := sqaChildScope s
  let vis1 := if s.nodes.isEmpty then vis else true
  match (if finalize then a.analyzeStartingAtBatch ch subScope
         else a.analyzeThroughBatch ch subScope) with
  | Except.error e => Except.error e
  | Except.ok r =>
      if 0 < cols.length && schemaLength r.1 != cols.length then
        Except.error AErr.columnCountMismatch
      else if r.2 = TI.same then
        Except.ok (Node.subqueryAlias nm cols vis1 ch, TI.same)
      else
        Except.ok (Node.subqueryAlias nm cols vis1 (StripPassthroughNodes r.1), TI.new)

/-- The expression-level step of resolveSubqueries and finalizeSubqueries:
subquery expressions are handed to analyzeSubqueryExpression with the
owning node; everything else is untouched. -/
def subqueryExprStep (a : Analyzer) (s : Scope) (finalize : Bool) (n : Node)
    (e : Expr) : Except AErr (Expr × TI) :=
  match e with
  | Expr.subquery q cached => analyzeSubqueryExpression a n q cached s finalize
  | e => Except.ok (e, TI.same)

/-- The per-node work of resolveSubqueries and finalizeSubqueries on an
expression-bearing node: rewrite each owned expression, rebuilding the node
once when any expression changed. -/
def analyzeSubqueryExprsInNode (a : Analyzer) (s : Scope) (finalize : Bool)
    (n : Node) : Except AErr (Node × TI) :=
  match mapExprsE (transformExprE (subqueryExprStep a s finalize n)) (nodeExprs n) with
  | Except.error e => Except.error e
  | Except.ok r =>
      if r.2 = TI.new then Except.ok (nodeWithExprs n r.1, TI.new)
      else Except.ok (n, TI.same)

/-- The context function of resolveSubqueries and finalizeSubqueries:
subquery aliases are handed whole to analyzeSubqueryAlias; other nodes have
their subquery expressions analyzed in place. -/
def subqueriesCtxFunc (a : Analyzer) (s : Scope) (finalize : Bool)
    (c : Ctx) : Except AErr (Node × TI) :=
  match c.node with
  | Node.subqueryAlias nm cols vis ch => analyzeSubqueryAlias a nm cols vis ch s finalize
  | n => analyzeSubqueryExprsInNode a s finalize n

/-- The traversal selector of resolveSubqueries and finalizeSubqueries: do
not descend below a subquery alias, so that only the next nesting level is
processed and scopes are computed one level at a time. -/
def subqueriesSelector : Ctx → Bool := fun c =>
  match c.parent with
  | some (Node.subqueryAlias _ _ _ _) => false
  | _ => true

/-- resolveSubqueries: tentative subquery resolution over the whole plan. -/
def resolveSubqueries (a : Analyzer) (s : Scope) (n : Node) : Except AErr (Node × TI) :=
  nodeWithCtxE subqueriesSelector (subqueriesCtxFunc a s false) n none 0

/-- finalizeSubqueries: the finalize phase of subquery resolution. -/
def finalizeSubqueries (a : Analyzer) (s : Scope) (n : Node) : Except AErr (Node × TI) :=
  nodeWithCtxE subqueriesSelector (subqueriesCtxFunc a s true) n none 0

/-- Whether a node is a join or an indexed join, the parent test of the
wrapping pass of cacheSubqueryAlisesInJoins. -/
def isJoinParent : Option Node → Bool
  | some (Node.join _ _ _ _ _) => true
  | some (Node.indexedJoin _ _) => true
  | _ => false

/-- The wrapping step of cacheSubqueryAlisesInJoins: a subquery alias that
is a direct child of a join or indexed join is wrapped in a CachedResults
node, because it is repeatedly executed and always safe to cache. -/
def cacheJoinAliasFn (c : Ctx) : Node × TI :=
  if isJoinParent c.parent then
    match c.node with
    | Node.subqueryAlias nm cols vis ch => (Node.cachedResults (Node.subqueryAlias nm cols vis ch), TI.new)
    | n => (n, TI.same)
  else (c.node, TI.same)

/-- The wrapping pass of cacheSubqueryAlisesInJoins over the whole tree. -/
def cacheJoinAliasPass (n : Node) : Node × TI :=
  nodeWithCtxP (fun _ => true) cacheJoinAliasFn n none 0

/-- The cleanup selector of cacheSubqueryAlisesInJoins: descend only into
the most primary branch of each join (child 0, or child 1 of a right join;
child 0 of an indexed join), and everywhere below other nodes. -/
def topJoinCleanupSelector : Ctx → Bool := fun c =>
  match c.parent with
  | some (Node.indexedJoin _ _) => c.childNum = 0
  | some (Node.join jt _ _ _ _) =>
      if jt = JoinType.right then c.childNum = 1 else c.childNum = 0
  | _ => true

/-- The cleanup step of cacheSubqueryAlisesInJoins: a CachedResults node
found on the traversed spine is replaced by its child. -/
def topJoinCleanupFn (c : Ctx) : Node × TI :=
  match c.node with
  | Node.cachedResults ch => (ch, TI.new)
  | n => (n, TI.same)

/-- The cleanup pass of cacheSubqueryAlisesInJoins over the whole tree. -/
def topJoinCleanupPass (n : Node) : Node × TI :=
  nodeWithCtxP topJoinCleanupSelector topJoinCleanupFn n none 0

/-- cacheSubqueryAlisesInJoins wraps subquery aliases used directly under
joins in CachedResults nodes, and, only when the active scope is empty,
removes again any CachedResults sitting on the most primary branch of the
top level join chain. -/
def cacheSubqueryAlisesInJoins (s : Scope) (n : Node) : Node × TI :=
  let ra := cacheJoinAliasPass n
  if s.IsEmpty then
    let rd := topJoinCleanupPass ra.1
    (rd.1, TI.and ra.2 rd.2)
  else (ra.1, ra.2)

/-- Whether a node is a strip-row wrapper. -/
def isStripRowNode : Node → Bool
  | Node.stripRowNode _ _ => true
  | _ => false

/-- Local rewrite of setJoinScopeLen: a join node is annotated with the
scope length, and both children are wrapped in StripRowNode wrappers unless
the left child is one already; plain join nodes only are affected, an
indexed join is not a JoinNode. Every rewritten join is reported changed. -/
def setJoinScopeLenFn (scopeLen : Nat) : Node → Node × TI
  | Node.join jt _ cond l r =>
      if isStripRowNode l then (Node.join jt scopeLen cond l r, TI.new)
      else (Node.join jt scopeLen cond (Node.stripRowNode scopeLen l) (Node.stripRowNode scopeLen r), TI.new)
  | n => (n, TI.same)

/-- setJoinScopeLen annotates every join node with the column count of the
enclosing scope; it is skipped entirely when the enclosing scope has no
columns. -/
def setJoinScopeLen (s : Scope) (n : Node) : Node × TI :=
  let scopeLen := scopeSchemaLen s
  if scopeLen = 0 then (n, TI.same)
  else transformNodeP (setJoinScopeLenFn scopeLen) n

/-
Claim-side predicates. These follow the wording of the specification, to be
compared with the definitions translated from the source. The body of a
subquery is its query tree together with the expressions owned by every
node of that tree; a nested subquery expression is an independent caching
unit and is opaque to these predicates, exactly as it exposes no expression
children to the inspection in the source.
-/

/-- Spec wording: every scalar field reference resolves to a column index at
or above the given boundary. -/
def exprFieldsAtLeast : Expr → Nat → Bool
  | Expr.getField i _, k => decide (k ≤ i)
  | Expr.literal _, _ => true
  | Expr.uncol _, _ => true
  | Expr.nondet, _ => true
  | Expr.unary e, k => exprFieldsAtLeast e k
  | Expr.subquery _ _, _ => true

/-- Field boundary check over a list of expressions. -/
def exprListFieldsAtLeast : ExprList → Nat → Bool
  | ExprList.nil, _ => true
  | ExprList.cons e es, k => exprFieldsAtLeast e k && exprListFieldsAtLeast es k

/-- Spec wording: every field reference anywhere in the body is at or above
the boundary. -/
def nodeFieldsAtLeast : Node → Nat → Bool
  | Node.table _ _, _ => true
  | Node.project es c, k => exprListFieldsAtLeast es k && nodeFieldsAtLeast c k
  | Node.subqueryAlias _ _ _ c, k => nodeFieldsAtLeast c k
  | Node.tableAlias _ c, k => nodeFieldsAtLeast c k
  | Node.cachedResults c, k => nodeFieldsAtLeast c k
  | Node.queryProcess c, k => nodeFieldsAtLeast c k
  | Node.startTransaction c, k => nodeFieldsAtLeast c k
  | Node.transactionCommitting c, k => nodeFieldsAtLeast c k
  | Node.join _ _ cond l r, k => exprFieldsAtLeast cond k && (nodeFieldsAtLeast l k && nodeFieldsAtLeast r k)
  | Node.indexedJoin l r, k => nodeFieldsAtLeast l k && nodeFieldsAtLeast r k
  | Node.stripRowNode _ c, k => nodeFieldsAtLeast c k
  | Node.trigBlock c, k => nodeFieldsAtLeast c k

/-- Spec wording: no sub-expression is marked non-deterministic. -/
def exprNoNonDet : Expr → Bool
  | Expr.getField _ _ => true
  | Expr.literal _ => true
  | Expr.uncol _ => true
  | Expr.nondet => false
  | Expr.unary e => exprNoNonDet e
  | Expr.subquery _ _ => true

/-- Determinism check over a list of expressions. -/
def exprListNoNonDet : ExprList → Bool
  | ExprList.nil => true
  | ExprList.cons e es => exprNoNonDet e && exprListNoNonDet es

/-- Spec wording: no expression anywhere in the body is non-deterministic. -/
def nodeNoNonDet : Node → Bool
  | Node.table _ _ => true
  | Node.project es c => exprListNoNonDet es && nodeNoNonDet c
  | Node.subqueryAlias _ _ _ c => nodeNoNonDet c
  | Node.tableAlias _ c => nodeNoNonDet c
  | Node.cachedResults c => nodeNoNonDet c
  | Node.queryProcess c => nodeNoNonDet c
  | Node.startTransaction c => nodeNoNonDet c
  | Node.transactionCommitting c => nodeNoNonDet c
  | Node.join _ _ cond l r => exprNoNonDet cond && (nodeNoNonDet l && nodeNoNonDet r)
  | Node.indexedJoin l r => nodeNoNonDet l && nodeNoNonDet r
  | Node.stripRowNode _ c => nodeNoNonDet c
  | Node.trigBlock c => nodeNoNonDet c

/-- Spec wording: the body contains no subquery-derived table at all. -/
def noSqaIn : Node → Bool
  | Node.table _ _ => true
  | Node.project _ c => noSqaIn c
  | Node.subqueryAlias _ _ _ _ => false
  | Node.tableAlias _ c => noSqaIn c
  | Node.cachedResults c => noSqaIn c
  | Node.queryProcess c => noSqaIn c
  | Node.startTransaction c => noSqaIn c
  | Node.transactionCommitting c => noSqaIn c
  | Node.join _ _ _ l r => noSqaIn l && noSqaIn r
  | Node.indexedJoin l r => noSqaIn l && noSqaIn r
  | Node.stripRowNode _ c => noSqaIn c
  | Node.trigBlock c => noSqaIn c

/-- Spec wording: the body contains no subquery-derived table with
outer-scope visibility anywhere inside it. -/
def noOuterVisSqaIn : Node → Bool
  | Node.table _ _ => true
  | Node.project _ c => noOuterVisSqaIn c
  | Node.subqueryAlias _ _ v c => !v && noOuterVisSqaIn c
  | Node.tableAlias _ c => noOuterVisSqaIn c
  | Node.cachedResults c => noOuterVisSqaIn c
  | Node.queryProcess c => noOuterVisSqaIn c
  | Node.startTransaction c => noOuterVisSqaIn c
  | Node.transactionCommitting c => noOuterVisSqaIn c
  | Node.join _ _ _ l r => noOuterVisSqaIn l && noOuterVisSqaIn r
  | Node.indexedJoin l r => noOuterVisSqaIn l && noOuterVisSqaIn r
  | Node.stripRowNode _ c => noOuterVisSqaIn c
  | Node.trigBlock c => noOuterVisSqaIn c

/-- The cacheability condition exactly as the claim words it: field
references at or above the scope boundary, no non-determinism, and no
outer-visible subquery-derived table anywhere in the body. -/
def specClaimCacheable (q : Node) (k : Nat) : Bool :=
  nodeFieldsAtLeast q k && (nodeNoNonDet q && noOuterVisSqaIn q)

/-- The amended cacheability condition: field references at or above the
scope boundary, no non-determinism, and no subquery-derived table at all
anywhere in the body. -/
def specAmendedCacheable (q : Node) (k : Nat) : Bool :=
  nodeFieldsAtLeast q k && (nodeNoNonDet q && noSqaIn q)

/-- Whether an expression tree contains a subquery expression. -/
def exprHasSubquery : Expr → Bool
  | Expr.getField _ _ => false
  | Expr.literal _ => false
  | Expr.uncol _ => false
  | Expr.nondet => false
  | Expr.unary e => exprHasSubquery e
  | Expr.subquery _ _ => true

/-- Subquery search over a list of expressions. -/
def exprListHasSubquery : ExprList → Bool
  | ExprList.nil => false
  | ExprList.cons e es => exprHasSubquery e || exprListHasSubquery es

/-- Whether a plan contains a subquery expression at a position the
resolveSubqueries traversal visits: inside the owned expressions of a node
reachable without crossing a subquery-derived-table boundary (everything
below such a boundary is handed to the recursive analyzer instead). -/
def hasVisibleSubqueryExpr : Node → Bool
  | Node.table _ _ => false
  | Node.project es c => exprListHasSubquery es || hasVisibleSubqueryExpr c
  | Node.subqueryAlias _ _ _ _ => false
  | Node.tableAlias _ c => hasVisibleSubqueryExpr c
  | Node.cachedResults c => hasVisibleSubqueryExpr c
  | Node.queryProcess c => hasVisibleSubqueryExpr c
  | Node.startTransaction c => hasVisibleSubqueryExpr c
  | Node.transactionCommitting c => hasVisibleSubqueryExpr c
  | Node.join _ _ cond l r => (exprHasSubquery cond || hasVisibleSubqueryExpr l) || hasVisibleSubqueryExpr r
  | Node.indexedJoin l r => hasVisibleSubqueryExpr l || hasVisibleSubqueryExpr r
  | Node.stripRowNode _ c => hasVisibleSubqueryExpr c
  | Node.trigBlock c => hasVisibleSubqueryExpr c

/-- Outer-scope-visibility flag of a subquery alias node. -/
def sqaOuterVis : Node → Bool
  | Node.subqueryAlias _ _ v _ => v
  | _ => false

/-- A constant analyzer used to exercise the subquery rules on concrete
inputs. -/
def constAnalyzer (r1 : Node × Option AErr) (r2 : Except AErr (Node × TI)) : Analyzer :=
  ⟨fun _ _ _ => r1, fun _ _ => r2, fun _ _ => r2⟩

/-- Whether an expression is a subquery expression. -/
def isSubqueryExpr : Expr → Bool
  | Expr.subquery _ _ => true
  | _ => false

/-- Whether a node is a plain join node (an indexed join is not one). -/
def isJoinNode : Node → Bool
  | Node.join _ _ _ _ _ => true
  | _ => false

/-- Whether a node is a subquery alias. -/
def isSqaNode : Node → Bool
  | Node.subqueryAlias _ _ _ _ => true
  | _ => false

/-- Whether a node is a table alias whose child is a subquery alias or
another table alias, the nodes flattenTableAliases rewrites. -/
def taChildFlattenable : Node → Bool
  | Node.tableAlias _ (Node.subqueryAlias _ _ _ _) => true
  | Node.tableAlias _ (Node.tableAlias _ _) => true
  | _ => false

/-- An analyzer whose recursive analysis reports a deferrable failure,
returning an incomplete result together with a column-not-found error. -/
def aDefer : Analyzer :=
  constAnalyzer (Node.table "t" 2, some AErr.columnNotFound) (Except.ok (Node.table "t" 2, TI.new))

/-- An analyzer whose recursive analysis reports a non-deferrable error. -/
def aFatal : Analyzer :=
  constAnalyzer (Node.table "t" 2, some (AErr.other 7)) (Except.error (AErr.other 7))

/-- An analyzer whose recursive analysis succeeds, returning a result still
wrapped in a top-level passthrough node. -/
def aOk : Analyzer :=
  constAnalyzer (Node.queryProcess (Node.table "t" 2), none) (Except.ok (Node.table "t" 2, TI.new))

theorem TI.and_same_right (t : TI) : TI.and t TI.same = t := by cases t <;> rfl

theorem TI.and_same_left (t : TI) : TI.and TI.same t = t := by cases t <;> rfl

theorem TI.and_new_left (t : TI) : TI.and TI.new t = TI.new := by cases t <;> rfl

theorem TI.and_new_right (t : TI) : TI.and t TI.new = TI.new := by cases t <;> rfl

/-- Stripping passthrough nodes never returns a passthrough node. -/
def stripNotPassAux : (n : Node) → isPassthrough (StripPassthroughNodes n) = false
  | Node.table _ _ => by simp [StripPassthroughNodes, isPassthrough]
  | Node.project _ _ => by simp [StripPassthroughNodes, isPassthrough]
  | Node.subqueryAlias _ _ _ _ => by simp [StripPassthroughNodes, isPassthrough]
  | Node.tableAlias _ _ => by simp [StripPassthroughNodes, isPassthrough]
  | Node.cachedResults _ => by simp [StripPassthroughNodes, isPassthrough]
  | Node.queryProcess c => by simpa [StripPassthroughNodes] using stripNotPassAux c
  | Node.startTransaction c => by simpa [StripPassthroughNodes] using stripNotPassAux c
  | Node.transactionCommitting c => by simpa [StripPassthroughNodes] using stripNotPassAux c
  | Node.join _ _ _ _ _ => by simp [StripPassthroughNodes, isPassthrough]
  | Node.indexedJoin _ _ => by simp [StripPassthroughNodes, isPassthrough]
  | Node.stripRowNode _ _ => by simp [StripPassthroughNodes, isPassthrough]
  | Node.trigBlock _ => by simp [StripPassthroughNodes, isPassthrough]

/-- Stripping is the identity on a node that is not a passthrough node. -/
theorem stripFixAux (n : Node) (h : isPassthrough n = false) : StripPassthroughNodes n = n := by
  cases n <;> simp_all [StripPassthroughNodes, isPassthrough]

/-- C10: flattenTableAliases rewrites every TableAlias whose first child is
a SubqueryAlias, or another TableAlias, into that child renamed with the
outer alias name, reporting NewTree, and returns every other node
unchanged, reporting SameTree; the rule applies this rewrite bottom-up over
the whole tree. -/
theorem flattenTableAliases_rewrite (nm nm2 : String) (cols : List String) (v : Bool)
    (c n : Node) :
    flattenTableAliasesFn (Node.tableAlias nm (Node.subqueryAlias nm2 cols v c)) =
      (Node.subqueryAlias nm cols v c, TI.new) ∧
    flattenTableAliasesFn (Node.tableAlias nm (Node.tableAlias nm2 c)) =
      (Node.tableAlias nm c, TI.new) ∧
    (taChildFlattenable n = false → flattenTableAliasesFn n = (n, TI.same)) ∧
    flattenTableAliases n = transformNodeP flattenTableAliasesFn n := by
  refine ⟨rfl, rfl, ?_, rfl⟩
  intro h
  cases n with
  | tableAlias nm3 c3 => cases c3 <;> simp_all [flattenTableAliasesFn, taChildFlattenable]
  | _ => rfl

theorem flattenTableAliases_rewrite_witness :
    taChildFlattenable (Node.tableAlias "o" (Node.table "t" 2)) = false ∧
    flattenTableAliasesFn (Node.tableAlias "o" (Node.table "t" 2)) =
      (Node.tableAlias "o" (Node.table "t" 2), TI.same) :=
  ⟨by rfl, (flattenTableAliases_rewrite "o" "i" [] false (Node.table "t" 2)
    (Node.tableAlias "o" (Node.table "t" 2))).2.2.1 (by rfl)⟩

/-- C7 counterexample: at a one-column scope, a join whose left child is
already a StripRowNode but whose right child is not gets only the
annotation update: the right child is left without a strip wrapper, against
the claim that wrappers are inserted around both children unless already
present. -/
theorem setJoinScopeLen_counterexample :
    setJoinScopeLen ⟨[Node.table "s" 1], 0⟩
      (Node.join JoinType.inner 0 (Expr.literal 0)
        (Node.stripRowNode 1 (Node.table "a" 1)) (Node.table "b" 1)) =
      (Node.join JoinType.inner 1 (Expr.literal 0)
        (Node.stripRowNode 1 (Node.table "a" 1)) (Node.table "b" 1), TI.new) ∧
    isStripRowNode (Node.table "b" 1) = false ∧
    scopeSchemaLen ⟨[Node.table "s" 1], 0⟩ = 1 :=
  ⟨rfl, rfl, rfl⟩

/-- C7 as amended: setJoinScopeLen returns the tree unchanged when the
enclosing scope schema is empty; otherwise it annotates every join node
with the scope column count, wrapping both children in StripRowNode
wrappers unless the left child is one already, in which case neither child
is wrapped; non-join nodes are untouched. -/
theorem setJoinScopeLen_behavior (s : Scope) (n l r : Node) (jt : JoinType)
    (sl k : Nat) (cond : Expr) :
    (scopeSchemaLen s = 0 → setJoinScopeLen s n = (n, TI.same)) ∧
    (setJoinScopeLenFn k (Node.join jt sl cond l r) =
      if isStripRowNode l then (Node.join jt k cond l r, TI.new)
      else (Node.join jt k cond (Node.stripRowNode k l) (Node.stripRowNode k r), TI.new)) ∧
    (isJoinNode n = false → setJoinScopeLenFn k n = (n, TI.same)) ∧
    (scopeSchemaLen s ≠ 0 →
      setJoinScopeLen s n = transformNodeP (setJoinScopeLenFn (scopeSchemaLen s)) n) ∧
    setJoinScopeLen ⟨[Node.table "s" 1], 0⟩
      (Node.join JoinType.inner 0 (Expr.literal 0) (Node.table "a" 1) (Node.table "b" 1)) =
      (Node.join JoinType.inner 1 (Expr.literal 0)
        (Node.stripRowNode 1 (Node.table "a" 1)) (Node.stripRowNode 1 (Node.table "b" 1)), TI.new) := by
  refine ⟨?_, ?_, ?_, ?_, rfl⟩
  · intro h; simp [setJoinScopeLen, h]
  · cases l <;> simp [setJoinScopeLenFn, isStripRowNode]
  · intro h; cases n <;> simp_all [setJoinScopeLenFn, isJoinNode]
  · intro h; simp [setJoinScopeLen, h]

theorem setJoinScopeLen_behavior_witness :
    setJoinScopeLen emptyScope (Node.table "z" 3) = (Node.table "z" 3, TI.same) ∧
    setJoinScopeLenFn 2 (Node.table "z" 3) = (Node.table "z" 3, TI.same) :=
  ⟨(setJoinScopeLen_behavior emptyScope (Node.table "z" 3) (Node.table "a" 1)
      (Node.table "b" 1) JoinType.inner 0 2 (Expr.literal 0)).1 (by rfl),
   (setJoinScopeLen_behavior emptyScope (Node.table "z" 3) (Node.table "a" 1)
      (Node.table "b" 1) JoinType.inner 0 2 (Expr.literal 0)).2.2.1 (by rfl)⟩

/-- C8: StripPassthroughNodes is idempotent, its result is never one of the
passthrough wrapper variants, and after a successful subquery analysis the
top-level passthrough wrappers are stripped from the analyzed subtree
before it is rewrapped into the subquery expression respectively
reattached under the subquery alias. -/
theorem stripPassthrough_idempotent (n q r ch : Node) (a : Analyzer) (s : Scope)
    (cached fin vis : Bool) (nm : String) :
    StripPassthroughNodes (StripPassthroughNodes n) = StripPassthroughNodes n ∧
    isPassthrough (StripPassthroughNodes n) = false ∧
    ((if fin then a.analyzeWithSelector false q (s.newScope r)
      else a.analyzeWithSelector true q (s.newScope r)) = (ch, none) →
      analyzeSubqueryExpression a r q cached s fin =
        Except.ok (Expr.subquery (StripPassthroughNodes ch) cached, TI.new)) ∧
    ((if fin then a.analyzeStartingAtBatch n (sqaChildScope s)
      else a.analyzeThroughBatch n (sqaChildScope s)) = Except.ok (ch, TI.new) →
      analyzeSubqueryAlias a nm [] vis n s fin =
        Except.ok (Node.subqueryAlias nm []
          (if s.nodes.isEmpty then vis else true) (StripPassthroughNodes ch), TI.new)) := by
  refine ⟨stripFixAux (StripPassthroughNodes n) (stripNotPassAux n), stripNotPassAux n, ?_, ?_⟩
  · intro h
    simp only [analyzeSubqueryExpression, h]
  · intro h
    simp only [analyzeSubqueryAlias, h]
    simp

theorem stripPassthrough_idempotent_witness :
    analyzeSubqueryExpression aOk (Node.table "y" 1) (Node.table "q" 1) false emptyScope false =
      Except.ok (Expr.subquery (StripPassthroughNodes (Node.queryProcess (Node.table "t" 2))) false, TI.new) ∧
    analyzeSubqueryAlias aOk "x" [] false (Node.table "c" 1) emptyScope true =
      Except.ok (Node.subqueryAlias "x" []
        (if ([] : List Node).isEmpty then false else true)
        (StripPassthroughNodes (Node.table "t" 2)), TI.new) :=
  ⟨(stripPassthrough_idempotent (Node.table "c" 1) (Node.table "q" 1) (Node.table "y" 1)
      (Node.queryProcess (Node.table "t" 2)) aOk emptyScope false false false "x").2.2.1 (by rfl),
   (stripPassthrough_idempotent (Node.table "c" 1) (Node.table "q" 1) (Node.table "y" 1)
      (Node.table "t" 2) aOk emptyScope false true false "x").2.2.2 (by rfl)⟩

/-- C2: when the recursive analysis of a subquery expression body fails, a
deferrable error (unresolved node, table-column-not-found or
column-not-found) in the tentative phase is swallowed: the incomplete
result is kept, rewrapped and reported as a new tree; in the finalize
phase, and for any non-deferrable error in either phase, the error is
propagated and no rewritten node is returned. -/
theorem analyzeSubqueryExpression_error_handling (a : Analyzer) (n q r : Node)
    (cached fin : Bool) (s : Scope) (err : AErr) :
    ((if fin then a.analyzeWithSelector false q (s.newScope n)
      else a.analyzeWithSelector true q (s.newScope n)) = (r, some err) →
      ((fin = false → err.deferrable = true →
          analyzeSubqueryExpression a n q cached s fin =
            Except.ok (Expr.subquery r cached, TI.new)) ∧
       (fin = true ∨ err.deferrable = false →
          analyzeSubqueryExpression a n q cached s fin = Except.error err))) ∧
    (err.deferrable = true ↔
      (err = AErr.validationResolved ∨ err = AErr.tableColumnNotFound ∨
        err = AErr.columnNotFound)) := by
  constructor
  · intro h
    constructor
    · intro hf hd
      subst hf
      simp at h
      simp [analyzeSubqueryExpression, h, hd]
    · intro hc
      cases hc with
      | inl hf =>
        subst hf
        simp at h
        simp [analyzeSubqueryExpression, h]
      | inr hd =>
        cases fin
        · simp at h
          simp [analyzeSubqueryExpression, h, hd]
        · simp at h
          simp [analyzeSubqueryExpression, h, hd]
  · cases err <;> simp [AErr.deferrable]

theorem analyzeSubqueryExpression_error_handling_witness :
    analyzeSubqueryExpression aDefer (Node.table "y" 1) (Node.table "q" 1) false emptyScope false =
      Except.ok (Expr.subquery (Node.table "t" 2) false, TI.new) ∧
    analyzeSubqueryExpression aFatal (Node.table "y" 1) (Node.table "q" 1) false emptyScope false =
      Except.error (AErr.other 7) :=
  ⟨((analyzeSubqueryExpression_error_handling aDefer (Node.table "y" 1) (Node.table "q" 1)
      (Node.table "t" 2) false false emptyScope AErr.columnNotFound).1 (by rfl)).1 rfl (by rfl),
   ((analyzeSubqueryExpression_error_handling aFatal (Node.table "y" 1) (Node.table "q" 1)
      (Node.table "t" 2) false false emptyScope (AErr.other 7)).1 (by rfl)).2 (Or.inr (by rfl))⟩

/-- C3: a subquery alias with declared column names whose analyzed body
produces a different number of columns fails with the structural
column-count-mismatch error in the tentative and in the finalize phase
alike; the error is returned directly, so nothing else of the query is
analyzed further. -/
theorem analyzeSubqueryAlias_column_mismatch (a : Analyzer) (nm : String)
    (cols : List String) (vis : Bool) (ch ch2 : Node) (s : Scope) (fin : Bool) (t : TI) :
    (if fin then a.analyzeStartingAtBatch ch (sqaChildScope s)
      else a.analyzeThroughBatch ch (sqaChildScope s)) = Except.ok (ch2, t) →
    0 < cols.length →
    schemaLength ch2 ≠ cols.length →
    analyzeSubqueryAlias a nm cols vis ch s fin = Except.error AErr.columnCountMismatch := by
  intro h h1 h2
  simp only [analyzeSubqueryAlias, h]
  simp [h1, h2]

theorem analyzeSubqueryAlias_column_mismatch_witness :
    analyzeSubqueryAlias aOk "x" ["c"] false (Node.table "c" 1) emptyScope true =
      Except.error AErr.columnCountMismatch ∧
    analyzeSubqueryAlias aOk "x" ["c"] false (Node.table "c" 1) emptyScope false =
      Except.error AErr.columnCountMismatch :=
  ⟨analyzeSubqueryAlias_column_mismatch aOk "x" ["c"] false (Node.table "c" 1)
      (Node.table "t" 2) emptyScope true TI.new (by rfl) (by decide) (by decide),
   analyzeSubqueryAlias_column_mismatch aOk "x" ["c"] false (Node.table "c" 1)
      (Node.table "t" 2) emptyScope false TI.new (by rfl) (by decide) (by decide)⟩

/-- The recursion depth of the derived-table child scope always increments
the enclosing depth by one. -/
theorem sqaChildScope_depth (s : Scope) :
    (sqaChildScope s).RecursionDepth = s.RecursionDepth + 1 := by
  unfold sqaChildScope newScopeWithDepth Scope.RecursionDepth
  split <;> rfl

/-- Iterating the derived-table child scope N times from the outermost
scope reaches recursion depth exactly N. -/
theorem sqaChildScope_iter_depth (N : Nat) :
    (sqaChildScope^[N] emptyScope).RecursionDepth = N := by
  induction N with
  | zero => rfl
  | succ m ih => rw [Function.iterate_succ_apply', sqaChildScope_depth, ih]

/-- C4: the child scope a subquery alias is analyzed under has recursion
depth one more than the enclosing scope, its nodes are the enclosing
chain, a chain of N nested subquery aliases reaches depth exactly N, the
outermost scope has depth 0, and the analyzed alias node is granted the
outer-visibility flag exactly when the enclosing scope is non-empty. -/
theorem analyzeSubqueryAlias_scope_depth (s : Scope) (N : Nat) (a : Analyzer)
    (nm : String) (cols : List String) (ch n2 : Node) (fin : Bool) (t : TI) :
    (sqaChildScope s).RecursionDepth = s.RecursionDepth + 1 ∧
    (sqaChildScope s).nodes = s.nodes ∧
    (sqaChildScope^[N] emptyScope).RecursionDepth = N ∧
    emptyScope.RecursionDepth = 0 ∧
    (analyzeSubqueryAlias a nm cols false ch s fin = Except.ok (n2, t) →
      sqaOuterVis n2 = !s.nodes.isEmpty) := by
  refine ⟨sqaChildScope_depth s, ?_, sqaChildScope_iter_depth N, rfl, ?_⟩
  · unfold sqaChildScope newScopeWithDepth Scope.InnerToOuter
    split
    · rename_i h
      simp [List.isEmpty_iff] at h
      simp [h]
    · rfl
  · intro h
    simp only [analyzeSubqueryAlias] at h
    cases hb : (if fin then a.analyzeStartingAtBatch ch (sqaChildScope s)
        else a.analyzeThroughBatch ch (sqaChildScope s)) with
    | error e => rw [hb] at h; cases h
    | ok r =>
      rw [hb] at h
      simp only [] at h
      split at h
      · cases h
      · split at h
        · rw [Except.ok.injEq, Prod.mk.injEq] at h
          rw [← h.1]
          cases he : s.nodes.isEmpty <;> simp [sqaOuterVis, he]
        · rw [Except.ok.injEq, Prod.mk.injEq] at h
          rw [← h.1]
          cases he : s.nodes.isEmpty <;> simp [sqaOuterVis, he]

theorem analyzeSubqueryAlias_scope_depth_witness :
    sqaOuterVis (Node.subqueryAlias "x" [] true (Node.table "t" 2)) =
      !([Node.table "s" 1] : List Node).isEmpty :=
  (analyzeSubqueryAlias_scope_depth ⟨[Node.table "s" 1], 0⟩ 0 aOk "x" []
    (Node.table "c" 1) (Node.subqueryAlias "x" [] true (Node.table "t" 2))
    true TI.new).2.2.2.2 (by rfl)

/-- C5: the cleanup of cacheSubqueryAlisesInJoins runs only at an empty
scope; at an empty scope it removes the caching wrapper sitting on the
most primary branch of the top level join (the left child, or the right
child of a right join, or the left child of an indexed join) while leaving
the wrapper on the non-primary side intact, and at a non-empty scope it
removes no wrapper at all. -/
theorem cacheSubqueryAlisesInJoins_cleanup (s : Scope) (n : Node) :
    (s.IsEmpty = false → cacheSubqueryAlisesInJoins s n = cacheJoinAliasPass n) ∧
    cacheSubqueryAlisesInJoins emptyScope
      (Node.join JoinType.inner 3 (Expr.literal 0)
        (Node.cachedResults (Node.table "a" 1)) (Node.cachedResults (Node.table "b" 2))) =
      (Node.join JoinType.inner 3 (Expr.literal 0)
        (Node.table "a" 1) (Node.cachedResults (Node.table "b" 2)), TI.new) ∧
    cacheSubqueryAlisesInJoins ⟨[Node.table "s" 1], 0⟩
      (Node.join JoinType.inner 3 (Expr.literal 0)
        (Node.cachedResults (Node.table "a" 1)) (Node.cachedResults (Node.table "b" 2))) =
      (Node.join JoinType.inner 3 (Expr.literal 0)
        (Node.cachedResults (Node.table "a" 1)) (Node.cachedResults (Node.table "b" 2)), TI.same) ∧
    cacheSubqueryAlisesInJoins emptyScope
      (Node.join JoinType.right 0 (Expr.literal 0)
        (Node.cachedResults (Node.table "a" 1)) (Node.cachedResults (Node.table "b" 2))) =
      (Node.join JoinType.right 0 (Expr.literal 0)
        (Node.cachedResults (Node.table "a" 1)) (Node.table "b" 2), TI.new) ∧
    cacheSubqueryAlisesInJoins emptyScope
      (Node.indexedJoin (Node.cachedResults (Node.table "a" 1)) (Node.cachedResults (Node.table "b" 2))) =
      (Node.indexedJoin (Node.table "a" 1) (Node.cachedResults (Node.table "b" 2)), TI.new) ∧
    cacheSubqueryAlisesInJoins emptyScope
      (Node.join JoinType.inner 0 (Expr.literal 0)
        (Node.table "a" 1) (Node.cachedResults (Node.table "b" 2))) =
      (Node.join JoinType.inner 0 (Expr.literal 0)
        (Node.table "a" 1) (Node.cachedResults (Node.table "b" 2)), TI.same) := by
  refine ⟨?_, rfl, rfl, rfl, rfl, rfl⟩
  intro h
  simp [cacheSubqueryAlisesInJoins, h]

theorem cacheSubqueryAlisesInJoins_cleanup_witness :
    cacheSubqueryAlisesInJoins ⟨[Node.table "s" 1], 0⟩ (Node.cachedResults (Node.table "a" 1)) =
      cacheJoinAliasPass (Node.cachedResults (Node.table "a" 1)) :=
  (cacheSubqueryAlisesInJoins_cleanup ⟨[Node.table "s" 1], 0⟩
    (Node.cachedResults (Node.table "a" 1))).1 (by rfl)

/-- C6: a subquery alias that is a direct child of a join or indexed join
node is always wrapped in a CachedResults node by cacheSubqueryAlisesInJoins,
reporting NewTree; on the non-primary side of a join the wrapper also
survives the cleanup, at any scope. -/
theorem cacheSubqueryAlisesInJoins_wraps (p n : Node) (i : Nat) (s : Scope)
    (jt : JoinType) (sl : Nat) (cond : Expr) (nm : String) (cols : List String) (vis : Bool) :
    (isJoinParent (some p) = true → isSqaNode n = true →
      cacheJoinAliasFn ⟨n, some p, i⟩ = (Node.cachedResults n, TI.new)) ∧
    (jt ≠ JoinType.right →
      cacheSubqueryAlisesInJoins s
        (Node.join jt sl cond (Node.table "a" 2)
          (Node.subqueryAlias nm cols vis (Node.table "t" 1))) =
        (Node.join jt sl cond (Node.table "a" 2)
          (Node.cachedResults (Node.subqueryAlias nm cols vis (Node.table "t" 1))), TI.new)) := by
  constructor
  · intro h1 h2
    cases n <;> simp_all [cacheJoinAliasFn, isSqaNode]
  · intro hj
    cases hs : s.IsEmpty <;>
      simp [cacheSubqueryAlisesInJoins, cacheJoinAliasPass, topJoinCleanupPass,
        nodeWithCtxP, cacheJoinAliasFn, topJoinCleanupFn, topJoinCleanupSelector,
        isJoinParent, TI.and, hs, hj]

theorem cacheSubqueryAlisesInJoins_wraps_witness :
    cacheJoinAliasFn ⟨Node.subqueryAlias "v" [] false (Node.table "t" 1),
        some (Node.indexedJoin (Node.table "a" 1) (Node.table "b" 1)), 1⟩ =
      (Node.cachedResults (Node.subqueryAlias "v" [] false (Node.table "t" 1)), TI.new) ∧
    cacheSubqueryAlisesInJoins emptyScope
      (Node.join JoinType.inner 0 (Expr.literal 0) (Node.table "a" 2)
        (Node.subqueryAlias "v" [] false (Node.table "t" 1))) =
      (Node.join JoinType.inner 0 (Expr.literal 0) (Node.table "a" 2)
        (Node.cachedResults (Node.subqueryAlias "v" [] false (Node.table "t" 1))), TI.new) :=
  ⟨(cacheSubqueryAlisesInJoins_wraps
      (Node.indexedJoin (Node.table "a" 1) (Node.table "b" 1))
      (Node.subqueryAlias "v" [] false (Node.table "t" 1)) 1 emptyScope
      JoinType.inner 0 (Expr.literal 0) "v" [] false).1 (by rfl) (by rfl),
   (cacheSubqueryAlisesInJoins_wraps
      (Node.indexedJoin (Node.table "a" 1) (Node.table "b" 1))
      (Node.subqueryAlias "v" [] false (Node.table "t" 1)) 1 emptyScope
      JoinType.inner 0 (Expr.literal 0) "v" [] false).2 (by decide)⟩

theorem boolShuffle2 (a b c d : Bool) :
    ((a && b) && (c && d)) = ((a && c) && (b && d)) := by
  cases a <;> cases b <;> cases c <;> cases d <;> rfl

theorem boolShuffle5 (a b c d e : Bool) :
    ((a && b) && (c && (d && e))) = ((a && c) && ((b && d) && e)) := by
  cases a <;> cases b <;> cases c <;> cases d <;> cases e <;> rfl

theorem boolShuffle6 (a b c d e f : Bool) :
    ((a && (b && c)) && (d && (e && f))) = ((a && d) && ((b && e) && (c && f))) := by
  cases a <;> cases b <;> cases c <;> cases d <;> cases e <;> cases f <;> rfl

theorem boolShuffle8 (a b c d e f g h : Bool) :
    ((a && b) && ((c && (d && e)) && (f && (g && h)))) =
      ((a && (c && f)) && ((b && (d && g)) && (e && h))) := by
  cases a <;> cases b <;> cases c <;> cases d <;> cases e <;> cases f <;> cases g <;> cases h <;> rfl

/-- The per-expression cacheability check of the source agrees with the
conjunction of the field-boundary and determinism conditions as the spec
words them. -/
def exprCacheEqAux : (e : Expr) → (k : Nat) →
    exprIsCacheable e k = (exprFieldsAtLeast e k && exprNoNonDet e)
  | Expr.getField _ _, _ => by simp [exprIsCacheable, exprFieldsAtLeast, exprNoNonDet]
  | Expr.literal _, _ => by simp [exprIsCacheable, exprFieldsAtLeast, exprNoNonDet]
  | Expr.uncol _, _ => by simp [exprIsCacheable, exprFieldsAtLeast, exprNoNonDet]
  | Expr.nondet, _ => by simp [exprIsCacheable, exprFieldsAtLeast, exprNoNonDet]
  | Expr.unary e, k => by
      simpa [exprIsCacheable, exprFieldsAtLeast, exprNoNonDet] using exprCacheEqAux e k
  | Expr.subquery _ _, _ => by simp [exprIsCacheable, exprFieldsAtLeast, exprNoNonDet]

/-- List version of the cacheability agreement. -/
def exprListCacheEqAux : (es : ExprList) → (k : Nat) →
    exprListCacheable es k = (exprListFieldsAtLeast es k && exprListNoNonDet es)
  | ExprList.nil, _ => by
      simp [exprListCacheable, exprListFieldsAtLeast, exprListNoNonDet]
  | ExprList.cons e es, k => by
      rw [exprListCacheable, exprListFieldsAtLeast, exprListNoNonDet,
        exprCacheEqAux e k, exprListCacheEqAux es k, boolShuffle2]

/-- The node cacheability check of the source agrees with the amended
specification condition: field references at or above the boundary, no
non-determinism, and no subquery alias anywhere in the body. -/
def nodeCacheEqAux : (n : Node) → (k : Nat) →
    nodeIsCacheable n k = specAmendedCacheable n k
  | Node.table _ _, _ => by
      simp [nodeIsCacheable, specAmendedCacheable, nodeFieldsAtLeast, nodeNoNonDet, noSqaIn]
  | Node.project es c, k => by
      rw [nodeIsCacheable, specAmendedCacheable, nodeFieldsAtLeast, nodeNoNonDet, noSqaIn,
        exprListCacheEqAux es k, nodeCacheEqAux c k, specAmendedCacheable, boolShuffle5]
  | Node.subqueryAlias _ _ _ _, _ => by
      simp [nodeIsCacheable, specAmendedCacheable, noSqaIn]
  | Node.tableAlias _ c, k => by
      rw [nodeIsCacheable, specAmendedCacheable, nodeFieldsAtLeast, nodeNoNonDet, noSqaIn,
        nodeCacheEqAux c k, specAmendedCacheable]
  | Node.cachedResults c, k => by
      rw [nodeIsCacheable, specAmendedCacheable, nodeFieldsAtLeast, nodeNoNonDet, noSqaIn,
        nodeCacheEqAux c k, specAmendedCacheable]
  | Node.queryProcess c, k => by
      rw [nodeIsCacheable, specAmendedCacheable, nodeFieldsAtLeast, nodeNoNonDet, noSqaIn,
        nodeCacheEqAux c k, specAmendedCacheable]
  | Node.startTransaction c, k => by
      rw [nodeIsCacheable, specAmendedCacheable, nodeFieldsAtLeast, nodeNoNonDet, noSqaIn,
        nodeCacheEqAux c k, specAmendedCacheable]
  | Node.transactionCommitting c, k => by
      rw [nodeIsCacheable, specAmendedCacheable, nodeFieldsAtLeast, nodeNoNonDet, noSqaIn,
        nodeCacheEqAux c k, specAmendedCacheable]
  | Node.join _ _ cond l r, k => by
      rw [nodeIsCacheable, specAmendedCacheable, nodeFieldsAtLeast, nodeNoNonDet, noSqaIn,
        exprCacheEqAux cond k, nodeCacheEqAux l k, nodeCacheEqAux r k,
        specAmendedCacheable, specAmendedCacheable, boolShuffle8]
  | Node.indexedJoin l r, k => by
      rw [nodeIsCacheable, specAmendedCacheable, nodeFieldsAtLeast, nodeNoNonDet, noSqaIn,
        nodeCacheEqAux l k, nodeCacheEqAux r k,
        specAmendedCacheable, specAmendedCacheable, boolShuffle6]
  | Node.stripRowNode _ c, k => by
      rw [nodeIsCacheable, specAmendedCacheable, nodeFieldsAtLeast, nodeNoNonDet, noSqaIn,
        nodeCacheEqAux c k, specAmendedCacheable]
  | Node.trigBlock c, k => by
      rw [nodeIsCacheable, specAmendedCacheable, nodeFieldsAtLeast, nodeNoNonDet, noSqaIn,
        nodeCacheEqAux c k, specAmendedCacheable]

/-- C1 counterexample: a resolved subquery whose body is a subquery alias
without outer-scope visibility (over a plain table, with no field
references and no non-determinism) satisfies every condition of the claim,
yet cacheSubqueryResults leaves it unmarked and reports SameTree, because
the source disables caching for every subquery alias regardless of its
visibility flag. -/
theorem cacheSubqueryResults_outerVis_counterexample :
    nodeResolved (Node.subqueryAlias "t" [] false (Node.table "x" 1)) = true ∧
    specClaimCacheable (Node.subqueryAlias "t" [] false (Node.table "x" 1))
      (scopeSchemaLen (Scope.newScope emptyScope (Node.table "y" 1))) = true ∧
    cacheSubqueryResultsExpr emptyScope (Node.table "y" 1)
      (Expr.subquery (Node.subqueryAlias "t" [] false (Node.table "x" 1)) false) =
      (Expr.subquery (Node.subqueryAlias "t" [] false (Node.table "x" 1)) false, TI.same) ∧
    cacheSubqueryResults emptyScope
      (Node.project (ExprList.cons
        (Expr.subquery (Node.subqueryAlias "t" [] false (Node.table "x" 1)) false)
        ExprList.nil) (Node.table "y" 1)) =
      (Node.project (ExprList.cons
        (Expr.subquery (Node.subqueryAlias "t" [] false (Node.table "x" 1)) false)
        ExprList.nil) (Node.table "y" 1), TI.same) :=
  ⟨rfl, rfl, rfl, rfl⟩

/-- C1 as amended: a resolved subquery expression is marked cacheable
(rewritten to carry cached results, reporting NewTree) if and only if every
field reference in its body is at or above the schema length of the scope
extended with the containing node, no expression in its body is
non-deterministic, and its body contains no subquery-derived table at all
(outer-visible or not); otherwise, and for every non-subquery expression,
the expression is returned unchanged with SameTree. -/
theorem cacheSubqueryResults_cacheable_iff (s : Scope) (n q : Node) (b : Node)
    (cached : Bool) (e : Expr) (k : Nat) :
    (cacheSubqueryResultsExpr s n (Expr.subquery q cached) =
      if nodeResolved q && specAmendedCacheable q (scopeSchemaLen (Scope.newScope s n))
      then (Expr.subquery q true, TI.new) else (Expr.subquery q cached, TI.same)) ∧
    nodeIsCacheable q k = specAmendedCacheable q k ∧
    (isSubqueryExpr e = false → cacheSubqueryResultsExpr s n e = (e, TI.same)) ∧
    cacheSubqueryResults s (Node.trigBlock b) = (Node.trigBlock b, TI.same) ∧
    cacheSubqueryResults emptyScope
      (Node.project (ExprList.cons (Expr.subquery (Node.table "x" 1) false) ExprList.nil)
        (Node.table "y" 2)) =
      (Node.project (ExprList.cons (Expr.subquery (Node.table "x" 1) true) ExprList.nil)
        (Node.table "y" 2), TI.new) := by
  refine ⟨?_, nodeCacheEqAux q k, ?_, rfl, rfl⟩
  · rw [cacheSubqueryResultsExpr, ← nodeCacheEqAux q (scopeSchemaLen (Scope.newScope s n))]
    cases hr : nodeResolved q <;>
      cases hc : nodeIsCacheable q (scopeSchemaLen (Scope.newScope s n)) <;> simp [hr, hc]
  · intro h
    cases e <;> simp_all [cacheSubqueryResultsExpr, isSubqueryExpr]

theorem cacheSubqueryResults_cacheable_iff_witness :
    cacheSubqueryResultsExpr emptyScope (Node.table "y" 1) (Expr.literal 5) =
      (Expr.literal 5, TI.same) :=
  (cacheSubqueryResults_cacheable_iff emptyScope (Node.table "y" 1) (Node.table "x" 1)
    (Node.table "x" 1) false (Expr.literal 5) 0).2.2.1 (by rfl)

/-- Every successful return of analyzeSubqueryExpression, including the
deferral of a resolution error in the tentative phase, reports NewTree. -/
theorem aseOkNew (a : Analyzer) (n q : Node) (cached : Bool) (s : Scope) (fin : Bool)
    (e : Expr) (t : TI)
    (h : analyzeSubqueryExpression a n q cached s fin = Except.ok (e, t)) : t = TI.new := by
  simp only [analyzeSubqueryExpression] at h
  split at h
  · split at h
    · rw [Except.ok.injEq, Prod.mk.injEq] at h
      exact h.2.symm
    · cases h
  · rw [Except.ok.injEq, Prod.mk.injEq] at h
    exact h.2.symm

/-- A successful expression rewrite of the tentative subquery step on an
expression containing a subquery reports NewTree. -/
def exprStepNewAux (a : Analyzer) (s : Scope) (n : Node) :
    (e : Expr) → exprHasSubquery e = true → (r : Expr) → (t : TI) →
    transformExprE (subqueryExprStep a s false n) e = Except.ok (r, t) → t = TI.new
  | Expr.unary e1, hh, r, t, hok => by
      rw [exprHasSubquery] at hh
      rw [transformExprE] at hok
      cases h1 : transformExprE (subqueryExprStep a s false n) e1 with
      | error err => rw [h1] at hok; cases hok
      | ok r1 =>
        rw [h1] at hok
        have hnew : r1.2 = TI.new := exprStepNewAux a s n e1 hh r1.1 r1.2 (by rw [h1])
        dsimp only at hok
        rw [hnew] at hok
        simp only [subqueryExprStep, reduceIte] at hok
        rw [Except.ok.injEq, Prod.mk.injEq] at hok
        rw [← hok.2]
        rfl
  | Expr.subquery q c, _, r, t, hok => by
      exact aseOkNew a n q c s false r t hok
  | Expr.getField _ _, hh, _, _, _ => by cases hh
  | Expr.literal _, hh, _, _, _ => by cases hh
  | Expr.uncol _, hh, _, _, _ => by cases hh
  | Expr.nondet, hh, _, _, _ => by cases hh

/-- A successful rewrite of an expression list containing a subquery
expression reports NewTree. -/
def listStepNewAux (a : Analyzer) (s : Scope) (n : Node) :
    (es : ExprList) → exprListHasSubquery es = true → (es2 : ExprList) → (t : TI) →
    mapExprsE (transformExprE (subqueryExprStep a s false n)) es = Except.ok (es2, t) →
    t = TI.new
  | ExprList.nil, hh, _, _, _ => by cases hh
  | ExprList.cons e es, hh, es2, t, hok => by
      rw [exprListHasSubquery] at hh
      rw [mapExprsE] at hok
      cases h1 : transformExprE (subqueryExprStep a s false n) e with
      | error err => rw [h1] at hok; cases hok
      | ok r1 =>
        rw [h1] at hok
        cases h2 : mapExprsE (transformExprE (subqueryExprStep a s false n)) es with
        | error err => rw [h2] at hok; cases hok
        | ok rs =>
          rw [h2] at hok
          dsimp only at hok
          rw [Except.ok.injEq, Prod.mk.injEq] at hok
          rw [← hok.2]
          have hh2 : exprHasSubquery e = true ∨ exprListHasSubquery es = true := by
            simpa using hh
          rcases hh2 with h | h
          · rw [exprStepNewAux a s n e h r1.1 r1.2 (by rw [h1]), TI.and_new_left]
          · rw [listStepNewAux a s n es h rs.1 rs.2 (by rw [h2]), TI.and_new_right]

/-- A successful per-node subquery-expression rewrite on a node whose owned
expressions contain a subquery reports NewTree. -/
theorem nodeExprsStepNew (a : Analyzer) (s : Scope) (m m2 : Node) (t : TI)
    (hh : exprListHasSubquery (nodeExprs m) = true)
    (hok : analyzeSubqueryExprsInNode a s false m = Except.ok (m2, t)) : t = TI.new := by
  rw [analyzeSubqueryExprsInNode] at hok
  cases h1 : mapExprsE (transformExprE (subqueryExprStep a s false m)) (nodeExprs m) with
  | error err => rw [h1] at hok; cases hok
  | ok rs =>
    rw [h1] at hok
    have hnew : rs.2 = TI.new := listStepNewAux a s m (nodeExprs m) hh rs.1 rs.2 (by rw [h1])
    dsimp only at hok
    rw [hnew] at hok
    simp only [reduceIte] at hok
    rw [Except.ok.injEq, Prod.mk.injEq] at hok
    exact hok.2.symm

theorem TI.and_eq_same (x y : TI) (h : TI.and x y = TI.same) :
    x = TI.same ∧ y = TI.same := by
  cases x <;> cases y <;> simp_all [TI.and]

/-- A successful resolveSubqueries traversal of a plan containing a
subquery expression at a visited position reports NewTree. -/
def visibleNewAux (a : Analyzer) (s : Scope) :
    (n : Node) → (p : Option Node) → (i : Nat) → (n2 : Node) → (t : TI) →
    hasVisibleSubqueryExpr n = true →
    nodeWithCtxE subqueriesSelector (subqueriesCtxFunc a s false) n p i = Except.ok (n2, t) →
    t = TI.new
  | Node.table _ _, _, _, _, _, hv, _ => by cases hv
  | Node.subqueryAlias _ _ _ _, _, _, _, _, hv, _ => by cases hv
  | Node.tableAlias nm c, p, i, n2, t, hv, hok => by
      rw [hasVisibleSubqueryExpr] at hv
      simp only [nodeWithCtxE, subqueriesSelector, reduceIte] at hok
      cases h1 : nodeWithCtxE subqueriesSelector (subqueriesCtxFunc a s false) c
          (some (Node.tableAlias nm c)) 0 with
      | error err => rw [h1] at hok; cases hok
      | ok r =>
        rw [h1] at hok
        dsimp only at hok
        have hnew : r.2 = TI.new :=
          visibleNewAux a s c (some (Node.tableAlias nm c)) 0 r.1 r.2 hv (by rw [h1])
        rw [hnew] at hok
        simp only [reduceIte] at hok
        cases h2 : subqueriesCtxFunc a s false ⟨Node.tableAlias nm r.1, p, i⟩ with
        | error err => rw [h2] at hok; cases hok
        | ok r2 =>
          rw [h2] at hok
          dsimp only at hok
          rw [Except.ok.injEq, Prod.mk.injEq] at hok
          rw [← hok.2, TI.and_new_left]
  | Node.project es c, p, i, n2, t, hv, hok => by
      rw [hasVisibleSubqueryExpr] at hv
      simp only [nodeWithCtxE, subqueriesSelector, reduceIte] at hok
      cases h1 : nodeWithCtxE subqueriesSelector (subqueriesCtxFunc a s false) c
          (some (Node.project es c)) 0 with
      | error err => rw [h1] at hok; cases hok
      | ok r =>
        rw [h1] at hok
        dsimp only at hok
        have hv2 : exprListHasSubquery es = true ∨ hasVisibleSubqueryExpr c = true := by
          simpa using hv
        cases hb : r.2 with
        | new =>
          rw [hb] at hok
          simp only [reduceIte] at hok
          cases h2 : subqueriesCtxFunc a s false ⟨Node.project es r.1, p, i⟩ with
          | error err => rw [h2] at hok; cases hok
          | ok r2 =>
            rw [h2] at hok
            dsimp only at hok
            rw [Except.ok.injEq, Prod.mk.injEq] at hok
            rw [← hok.2, TI.and_new_left]
        | same =>
          rcases hv2 with hx | hx
          · rw [hb] at hok
            rw [if_neg (by simp : ¬(TI.same = TI.new))] at hok
            cases h2 : subqueriesCtxFunc a s false ⟨Node.project es c, p, i⟩ with
            | error err => rw [h2] at hok; cases hok
            | ok r2 =>
              rw [h2] at hok
              dsimp only at hok
              rw [Except.ok.injEq, Prod.mk.injEq] at hok
              have h2b : analyzeSubqueryExprsInNode a s false (Node.project es c) =
                  Except.ok (r2.1, r2.2) := h2
              have hr2 : r2.2 = TI.new :=
                nodeExprsStepNew a s (Node.project es c) r2.1 r2.2 (by simpa [nodeExprs] using hx) h2b
              rw [← hok.2, hr2, TI.and_new_right]
          · have hnew : r.2 = TI.new :=
              visibleNewAux a s c (some (Node.project es c)) 0 r.1 r.2 hx (by rw [h1])
            rw [hnew] at hb
            cases hb
  | Node.cachedResults c, p, i, n2, t, hv, hok => by
      rw [hasVisibleSubqueryExpr] at hv
      simp only [nodeWithCtxE, subqueriesSelector, reduceIte] at hok
      cases h1 : nodeWithCtxE subqueriesSelector (subqueriesCtxFunc a s false) c
          (some (Node.cachedResults c)) 0 with
      | error err => rw [h1] at hok; cases hok
      | ok r =>
        rw [h1] at hok
        dsimp only at hok
        have hnew : r.2 = TI.new :=
          visibleNewAux a s c (some (Node.cachedResults c)) 0 r.1 r.2 hv (by rw [h1])
        rw [hnew] at hok
        simp only [reduceIte] at hok
        cases h2 : subqueriesCtxFunc a s false ⟨Node.cachedResults r.1, p, i⟩ with
        | error err => rw [h2] at hok; cases hok
        | ok r2 =>
          rw [h2] at hok
          dsimp only at hok
          rw [Except.ok.injEq, Prod.mk.injEq] at hok
          rw [← hok.2, TI.and_new_left]
  | Node.queryProcess c, p, i, n2, t, hv, hok => by
      rw [hasVisibleSubqueryExpr] at hv
      simp only [nodeWithCtxE, subqueriesSelector, reduceIte] at hok
      cases h1 : nodeWithCtxE subqueriesSelector (subqueriesCtxFunc a s false) c
          (some (Node.queryProcess c)) 0 with
      | error err => rw [h1] at hok; cases hok
      | ok r =>
        rw [h1] at hok
        dsimp only at hok
        have hnew : r.2 = TI.new :=
          visibleNewAux a s c (some (Node.queryProcess c)) 0 r.1 r.2 hv (by rw [h1])
        rw [hnew] at hok
        simp only [reduceIte] at hok
        cases h2 : subqueriesCtxFunc a s false ⟨Node.queryProcess r.1, p, i⟩ with
        | error err => rw [h2] at hok; cases hok
        | ok r2 =>
          rw [h2] at hok
          dsimp only at hok
          rw [Except.ok.injEq, Prod.mk.injEq] at hok
          rw [← hok.2, TI.and_new_left]
  | Node.startTransaction c, p, i, n2, t, hv, hok => by
      rw [hasVisibleSubqueryExpr] at hv
      simp only [nodeWithCtxE, subqueriesSelector, reduceIte] at hok
      cases h1 : nodeWithCtxE subqueriesSelector (subqueriesCtxFunc a s false) c
          (some (Node.startTransaction c)) 0 with
      | error err => rw [h1] at hok; cases hok
      | ok r =>
        rw [h1] at hok
        dsimp only at hok
        have hnew : r.2 = TI.new :=
          visibleNewAux a s c (some (Node.startTransaction c)) 0 r.1 r.2 hv (by rw [h1])
        rw [hnew] at hok
        simp only [reduceIte] at hok
        cases h2 : subqueriesCtxFunc a s false ⟨Node.startTransaction r.1, p, i⟩ with
        | error err => rw [h2] at hok; cases hok
        | ok r2 =>
          rw [h2] at hok
          dsimp only at hok
          rw [Except.ok.injEq, Prod.mk.injEq] at hok
          rw [← hok.2, TI.and_new_left]
  | Node.transactionCommitting c, p, i, n2, t, hv, hok => by
      rw [hasVisibleSubqueryExpr] at hv
      simp only [nodeWithCtxE, subqueriesSelector, reduceIte] at hok
      cases h1 : nodeWithCtxE subqueriesSelector (subqueriesCtxFunc a s false) c
          (some (Node.transactionCommitting c)) 0 with
      | error err => rw [h1] at hok; cases hok
      | ok r =>
        rw [h1] at hok
        dsimp only at hok
        have hnew : r.2 = TI.new :=
          visibleNewAux a s c (some (Node.transactionCommitting c)) 0 r.1 r.2 hv (by rw [h1])
        rw [hnew] at hok
        simp only [reduceIte] at hok
        cases h2 : subqueriesCtxFunc a s false ⟨Node.transactionCommitting r.1, p, i⟩ with
        | error err => rw [h2] at hok; cases hok
        | ok r2 =>
          rw [h2] at hok
          dsimp only at hok
          rw [Except.ok.injEq, Prod.mk.injEq] at hok
          rw [← hok.2, TI.and_new_left]
  | Node.stripRowNode k c, p, i, n2, t, hv, hok => by
      rw [hasVisibleSubqueryExpr] at hv
      simp only [nodeWithCtxE, subqueriesSelector, reduceIte] at hok
      cases h1 : nodeWithCtxE subqueriesSelector (subqueriesCtxFunc a s false) c
          (some (Node.stripRowNode k c)) 0 with
      | error err => rw [h1] at hok; cases hok
      | ok r =>
        rw [h1] at hok
        dsimp only at hok
        have hnew : r.2 = TI.new :=
          visibleNewAux a s c (some (Node.stripRowNode k c)) 0 r.1 r.2 hv (by rw [h1])
        rw [hnew] at hok
        simp only [reduceIte] at hok
        cases h2 : subqueriesCtxFunc a s false ⟨Node.stripRowNode k r.1, p, i⟩ with
        | error err => rw [h2] at hok; cases hok
        | ok r2 =>
          rw [h2] at hok
          dsimp only at hok
          rw [Except.ok.injEq, Prod.mk.injEq] at hok
          rw [← hok.2, TI.and_new_left]
  | Node.trigBlock c, p, i, n2, t, hv, hok => by
      rw [hasVisibleSubqueryExpr] at hv
      simp only [nodeWithCtxE, subqueriesSelector, reduceIte] at hok
      cases h1 : nodeWithCtxE subqueriesSelector (subqueriesCtxFunc a s false) c
          (some (Node.trigBlock c)) 0 with
      | error err => rw [h1] at hok; cases hok
      | ok r =>
        rw [h1] at hok
        dsimp only at hok
        have hnew : r.2 = TI.new :=
          visibleNewAux a s c (some (Node.trigBlock c)) 0 r.1 r.2 hv (by rw [h1])
        rw [hnew] at hok
        simp only [reduceIte] at hok
        cases h2 : subqueriesCtxFunc a s false ⟨Node.trigBlock r.1, p, i⟩ with
        | error err => rw [h2] at hok; cases hok
        | ok r2 =>
          rw [h2] at hok
          dsimp only at hok
          rw [Except.ok.injEq, Prod.mk.injEq] at hok
          rw [← hok.2, TI.and_new_left]
  | Node.join jt sl cond l rr, p, i, n2, t, hv, hok => by
      rw [hasVisibleSubqueryExpr] at hv
      simp only [nodeWithCtxE, subqueriesSelector, reduceIte] at hok
      cases h1 : nodeWithCtxE subqueriesSelector (subqueriesCtxFunc a s false) l
          (some (Node.join jt sl cond l rr)) 0 with
      | error err => rw [h1] at hok; cases hok
      | ok ra =>
        rw [h1] at hok
        cases h2 : nodeWithCtxE subqueriesSelector (subqueriesCtxFunc a s false) rr
            (some (Node.join jt sl cond l rr)) 1 with
        | error err => rw [h2] at hok; cases hok
        | ok rb =>
          rw [h2] at hok
          dsimp only at hok
          have hv2 : (exprHasSubquery cond = true ∨ hasVisibleSubqueryExpr l = true) ∨
              hasVisibleSubqueryExpr rr = true := by simpa using hv
          cases hc : TI.and ra.2 rb.2 with
          | new =>
            rw [hc] at hok
            simp only [reduceIte] at hok
            cases h3 : subqueriesCtxFunc a s false
                ⟨Node.join jt sl cond (if ra.2 = TI.new then ra.1 else l)
                  (if rb.2 = TI.new then rb.1 else rr), p, i⟩ with
            | error err => rw [h3] at hok; cases hok
            | ok r2 =>
              rw [h3] at hok
              dsimp only at hok
              rw [Except.ok.injEq, Prod.mk.injEq] at hok
              rw [← hok.2, TI.and_new_left]
          | same =>
            have hboth := TI.and_eq_same ra.2 rb.2 hc
            rcases hv2 with hx | hx
            · rcases hx with hx | hx
              · rw [hc] at hok
                rw [if_neg (by simp : ¬(TI.same = TI.new))] at hok
                cases h3 : subqueriesCtxFunc a s false ⟨Node.join jt sl cond l rr, p, i⟩ with
                | error err => rw [h3] at hok; cases hok
                | ok r2 =>
                  rw [h3] at hok
                  dsimp only at hok
                  rw [Except.ok.injEq, Prod.mk.injEq] at hok
                  have h3b : analyzeSubqueryExprsInNode a s false (Node.join jt sl cond l rr) =
                      Except.ok (r2.1, r2.2) := h3
                  have hr2 : r2.2 = TI.new :=
                    nodeExprsStepNew a s (Node.join jt sl cond l rr) r2.1 r2.2
                      (by simpa [nodeExprs, exprListHasSubquery] using hx) h3b
                  rw [← hok.2, hr2, TI.and_new_right]
              · have hnew : ra.2 = TI.new :=
                  visibleNewAux a s l (some (Node.join jt sl cond l rr)) 0 ra.1 ra.2 hx (by rw [h1])
                rw [hnew] at hboth
                cases hboth.1
            · have hnew : rb.2 = TI.new :=
                visibleNewAux a s rr (some (Node.join jt sl cond l rr)) 1 rb.1 rb.2 hx (by rw [h2])
              rw [hnew] at hboth
              cases hboth.2
  | Node.indexedJoin l rr, p, i, n2, t, hv, hok => by
      rw [hasVisibleSubqueryExpr] at hv
      simp only [nodeWithCtxE, subqueriesSelector, reduceIte] at hok
      cases h1 : nodeWithCtxE subqueriesSelector (subqueriesCtxFunc a s false) l
          (some (Node.indexedJoin l rr)) 0 with
      | error err => rw [h1] at hok; cases hok
      | ok ra =>
        rw [h1] at hok
        cases h2 : nodeWithCtxE subqueriesSelector (subqueriesCtxFunc a s false) rr
            (some (Node.indexedJoin l rr)) 1 with
        | error err => rw [h2] at hok; cases hok
        | ok rb =>
          rw [h2] at hok
          dsimp only at hok
          have hv2 : hasVisibleSubqueryExpr l = true ∨ hasVisibleSubqueryExpr rr = true := by
            simpa using hv
          cases hc : TI.and ra.2 rb.2 with
          | new =>
            rw [hc] at hok
            simp only [reduceIte] at hok
            cases h3 : subqueriesCtxFunc a s false
                ⟨Node.indexedJoin (if ra.2 = TI.new then ra.1 else l)
                  (if rb.2 = TI.new then rb.1 else rr), p, i⟩ with
            | error err => rw [h3] at hok; cases hok
            | ok r2 =>
              rw [h3] at hok
              dsimp only at hok
              rw [Except.ok.injEq, Prod.mk.injEq] at hok
              rw [← hok.2, TI.and_new_left]
          | same =>
            have hboth := TI.and_eq_same ra.2 rb.2 hc
            rcases hv2 with hx | hx
            · have hnew : ra.2 = TI.new :=
                visibleNewAux a s l (some (Node.indexedJoin l rr)) 0 ra.1 ra.2 hx (by rw [h1])
              rw [hnew] at hboth
              cases hboth.1
            · have hnew : rb.2 = TI.new :=
                visibleNewAux a s rr (some (Node.indexedJoin l rr)) 1 rb.1 rb.2 hx (by rw [h2])
              rw [hnew] at hboth
              cases hboth.2

/-- C9: analyzeSubqueryExpression reports NewTree whenever it returns
without error, even when the analyzed inner query is structurally identical
to the input; consequently a successful resolveSubqueries run never
reports SameTree on a plan containing a subquery expression at a position
its traversal visits (one not below a subquery-derived-table boundary,
which is handed to the recursive analyzer instead). -/
theorem resolveSubqueries_always_new (a : Analyzer) (s : Scope) (m q n n2 : Node)
    (cached fin : Bool) (e : Expr) (t : TI) :
    (analyzeSubqueryExpression a m q cached s fin = Except.ok (e, t) → t = TI.new) ∧
    (hasVisibleSubqueryExpr n = true →
      resolveSubqueries a s n = Except.ok (n2, t) → t = TI.new) := by
  constructor
  · exact aseOkNew a m q cached s fin e t
  · intro hv hok
    exact visibleNewAux a s n none 0 n2 t hv hok

theorem resolveSubqueries_always_new_witness :
    analyzeSubqueryExpression aOk (Node.table "y" 1) (Node.table "q" 1) false emptyScope false =
      Except.ok (Expr.subquery (Node.table "t" 2) false, TI.new) ∧
    hasVisibleSubqueryExpr
      (Node.project (ExprList.cons (Expr.subquery (Node.table "q" 1) false) ExprList.nil)
        (Node.table "u" 1)) = true ∧
    TI.new = TI.new :=
  ⟨by rfl, by rfl,
   (resolveSubqueries_always_new aOk emptyScope (Node.table "y" 1) (Node.table "q" 1)
      (Node.project (ExprList.cons (Expr.subquery (Node.table "q" 1) false) ExprList.nil)
        (Node.table "u" 1))
      (Node.project (ExprList.cons (Expr.subquery (Node.table "t" 2) false) ExprList.nil)
        (Node.table "u" 1))
      false false (Expr.subquery (Node.table "t" 2) false) TI.new).2 (by rfl) (by rfl)⟩

end GmsAnalyzer
